import Mathlib

/-!
Verification of the tg-nft-auction bidding / funds-custody / settlement engine.

The repository's core is embedded shallowly:
* `WalletService` (src/services/WalletService.ts): `lockFunds`, `deductFunds`,
  `refundFunds` act on a single user's wallet record, looked up by id; the
  record is `Option UserW` (`none` = account does not exist).  Monetary
  amounts are modelled as `Int` (exact arithmetic).
* `AuctionService` (src/services/AuctionService.ts): `placeBid`,
  `processRoundEnd`, `createAuction` act on an explicit state record holding
  the ledger, the bid book, the items, the auction/round metadata and the
  Redis leaderboards (modelled as per-round lists sorted descending by
  score).
Errors (thrown exceptions in the source) are modelled with `Except`; a
failed operation returns no state, i.e. the caller keeps the unchanged one.
-/

namespace TgNftAuction

/-! ## Ledger (WalletService) -/

/-- A user's wallet record (model of the `User` mongoose document's monetary
fields). -/
structure UserW where
  balance : Int
  frozenFunds : Int
deriving DecidableEq

/-- Errors thrown by `WalletService` operations. -/
inductive WalletError
  | insufficientFunds
  | userNotFound
deriving DecidableEq

/-- `WalletService.lockFunds` (escrow): the amount-positivity guard throws
`InsufficientFundsError`; a missing account throws `UserNotFoundError`;
otherwise the operation succeeds iff `balance - frozenFunds >= amount`, in
which case `frozenFunds` is incremented.  In the repository this is a single
conditional `findOneAndUpdate` with the `$expr` availability check (the
compare-and-update form), so each call is one atomic step. -/
def lockFunds (amount : Int) (acct : Option UserW) : Except WalletError UserW :=
  if amount ≤ 0 then .error .insufficientFunds
  else
    match acct with
    | none => .error .userNotFound
    | some u =>
      if u.balance - u.frozenFunds < amount then .error .insufficientFunds
      else .ok { u with frozenFunds := u.frozenFunds + amount }

/-- `WalletService.deductFunds` (settle on a win): requires
`frozenFunds >= amount` and `balance >= amount`; decrements both. -/
def deductFunds (amount : Int) (acct : Option UserW) : Except WalletError UserW :=
  if amount ≤ 0 then .error .insufficientFunds
  else
    match acct with
    | none => .error .userNotFound
    | some u =>
      if u.frozenFunds < amount then .error .insufficientFunds
      else if u.balance < amount then .error .insufficientFunds
      else .ok { balance := u.balance - amount, frozenFunds := u.frozenFunds - amount }

/-- `WalletService.refundFunds` (release on a loss/refund): requires
`frozenFunds >= amount`; decrements `frozenFunds` only. -/
def refundFunds (amount : Int) (acct : Option UserW) : Except WalletError UserW :=
  if amount ≤ 0 then .error .insufficientFunds
  else
    match acct with
    | none => .error .userNotFound
    | some u =>
      if u.frozenFunds < amount then .error .insufficientFunds
      else .ok { u with frozenFunds := u.frozenFunds - amount }

/-- One Ledger operation, as named in the spec. -/
inductive WalletOp
  | lock (a : Int)
  | deduct (a : Int)
  | refund (a : Int)
deriving DecidableEq

/-- Run one operation against an account; a thrown error leaves the stored
account unchanged (the source throws before any write in every failure
branch). -/
def applyOp (op : WalletOp) (acct : Option UserW) : Option UserW :=
  match (match op with
         | .lock a => lockFunds a acct
         | .deduct a => deductFunds a acct
         | .refund a => refundFunds a acct) with
  | .ok u => some u
  | .error _ => acct

/-- Run a sequence of Ledger operations. -/
def runOps (ops : List WalletOp) (acct : Option UserW) : Option UserW :=
  ops.foldl (fun s op => applyOp op s) acct

/-- The Ledger invariant: `balance >= frozenFunds >= 0` (vacuous for a
non-existing account). -/
def WalletInv : Option UserW → Prop
  | none => True
  | some u => 0 ≤ u.frozenFunds ∧ u.frozenFunds ≤ u.balance

instance : DecidablePred WalletInv := by
  intro acct
  cases acct with
  | none => exact isTrue trivial
  | some u => exact instDecidableAnd

/-- `true` iff the call succeeded. -/
def lockOk : Except WalletError UserW → Bool
  | .ok _ => true
  | .error _ => false

/-- `N` escrow calls of the same amount against one account, each a single
atomic compare-and-update step (the `findOneAndUpdate` form of
`lockFunds`): returns the final account and the list of call results.
Because every call is one atomic step and all calls are identical, any
interleaving of `N` concurrent calls is this sequence. -/
def runLocks (a : Int) : Nat → Option UserW → Option UserW × List (Except WalletError UserW)
  | 0, acct => (acct, [])
  | n + 1, acct =>
    let r := lockFunds a acct
    let next := match r with
      | .ok u => some u
      | .error _ => acct
    let rest := runLocks a n next
    (rest.1, r :: rest.2)

/-! ### Lemmas about the Ledger -/

theorem lockFunds_pos_some (a : Int) (ha : 0 < a) (u : UserW) :
    lockFunds a (some u) =
      if u.balance - u.frozenFunds < a then .error .insufficientFunds
      else .ok { u with frozenFunds := u.frozenFunds + a } := by
  unfold lockFunds
  rw [if_neg (by omega)]

theorem runLocks_count (a : Nat) (ha : 0 < a) :
    ∀ (n : Nat) (bal fro : Int),
      ((runLocks (a : Int) n (some ⟨bal, fro⟩)).2.countP lockOk) =
        min n ((bal - fro).toNat / a) := by
  intro n
  induction n with
  | zero => intro bal fro; simp [runLocks]
  | succ n ih =>
    intro bal fro
    by_cases h : bal - fro < (a : Int)
    · have hdiv : (bal - fro).toNat / a = 0 := Nat.div_eq_of_lt (by omega)
      have hlock : lockFunds (a : Int) (some ⟨bal, fro⟩) = .error .insufficientFunds := by
        rw [lockFunds_pos_some _ (by exact_mod_cast ha), if_pos h]
      simp only [runLocks, hlock]
      rw [List.countP_cons_of_neg _ _ (by simp [lockOk])]
      rw [ih bal fro, hdiv]
      simp
    · have hlock : lockFunds (a : Int) (some ⟨bal, fro⟩) =
          .ok ⟨bal, fro + a⟩ := by
        rw [lockFunds_pos_some _ (by exact_mod_cast ha), if_neg h]
      simp only [runLocks, hlock]
      rw [List.countP_cons_of_pos _ _ (by simp [lockOk])]
      rw [ih bal (fro + a)]
      have h1 : (bal - (fro + a)).toNat = (bal - fro).toNat - a := by omega
      have h2 : a ≤ (bal - fro).toNat := by omega
      have h3 : (bal - fro).toNat / a = ((bal - fro).toNat - a) / a + 1 := by
        conv_lhs => rw [Nat.div_eq]
        rw [if_pos ⟨ha, h2⟩]
      rw [h1, h3]
      omega

theorem runLocks_errors (a : Nat) (ha : 0 < a) :
    ∀ (n : Nat) (u : UserW) (r : Except WalletError UserW),
      r ∈ (runLocks (a : Int) n (some u)).2 → lockOk r = true ∨
        r = .error .insufficientFunds := by
  intro n
  induction n with
  | zero => intro u r hr; simp [runLocks] at hr
  | succ n ih =>
    intro u r hr
    simp only [runLocks, List.mem_cons] at hr
    rcases hr with hr | hr
    · subst hr
      rw [lockFunds_pos_some _ (by exact_mod_cast ha)]
      by_cases h : u.balance - u.frozenFunds < (a : Int)
      · rw [if_pos h]; right; rfl
      · rw [if_neg h]; left; rfl
    · by_cases h : u.balance - u.frozenFunds < (a : Int)
      · have hlock : lockFunds (a : Int) (some u) = .error .insufficientFunds := by
          rw [lockFunds_pos_some _ (by exact_mod_cast ha), if_pos h]
        simp only [runLocks, hlock] at hr
        exact ih u r hr
      · have hlock : lockFunds (a : Int) (some u) =
            .ok { u with frozenFunds := u.frozenFunds + a } := by
          rw [lockFunds_pos_some _ (by exact_mod_cast ha), if_neg h]
        simp only [runLocks, hlock] at hr
        exact ih _ r hr

/-! ### Claims C1 - C3 -/

/-- **C1.** For every account and every amount > 0, `lockFunds` succeeds iff
the account exists and `balance - frozenFunds >= amount`; on success its
sole effect is `frozenFunds += amount` (balance unchanged); it fails with
`InsufficientFunds` when the available balance is less than the amount and
with `UserNotFound` when the account does not exist.  Failures return no
updated record, so the stored state is unchanged. -/
theorem C1_lockFunds_spec (acct : Option UserW) (amount : Int) (hpos : 0 < amount) :
    (∀ u : UserW, acct = some u →
      (amount ≤ u.balance - u.frozenFunds →
        lockFunds amount acct = .ok ⟨u.balance, u.frozenFunds + amount⟩) ∧
      (u.balance - u.frozenFunds < amount →
        lockFunds amount acct = .error .insufficientFunds)) ∧
    (acct = none → lockFunds amount acct = .error .userNotFound) := by
  constructor
  · intro u hu
    subst hu
    constructor
    · intro h
      rw [lockFunds_pos_some _ hpos, if_neg (by omega)]
    · intro h
      rw [lockFunds_pos_some _ hpos, if_pos h]
  · intro h
    subst h
    unfold lockFunds
    rw [if_neg (by omega)]

theorem C1_lockFunds_spec_witness :
    (0 : Int) < 300 ∧
      lockFunds 300 (some ⟨1000, 500⟩) = .ok ⟨1000, 800⟩ ∧
      lockFunds 300 (some ⟨1000, 900⟩) = .error .insufficientFunds ∧
      lockFunds 300 none = .error .userNotFound := by
  refine ⟨by decide, ?_, ?_, ?_⟩
  · exact ((C1_lockFunds_spec (some ⟨1000, 500⟩) 300 (by decide)).1 _ rfl).1 (by decide)
  · exact ((C1_lockFunds_spec (some ⟨1000, 900⟩) 300 (by decide)).1 _ rfl).2 (by decide)
  · exact (C1_lockFunds_spec none 300 (by decide)).2 rfl

theorem lockFunds_ok_inv (a : Int) (acct : Option UserW) (v : UserW)
    (hinv : WalletInv acct) (hE : lockFunds a acct = .ok v) : WalletInv (some v) := by
  unfold lockFunds at hE
  split at hE
  · exact absurd hE (by simp)
  · split at hE
    · exact absurd hE (by simp)
    · split at hE
      · exact absurd hE (by simp)
      · rename_i u hne hfunds
        simp only [Except.ok.injEq] at hE
        subst hE
        obtain ⟨h0, h1⟩ := hinv
        exact ⟨by simp; omega, by simp; omega⟩

theorem deductFunds_ok_inv (a : Int) (acct : Option UserW) (v : UserW)
    (hinv : WalletInv acct) (hE : deductFunds a acct = .ok v) : WalletInv (some v) := by
  unfold deductFunds at hE
  split at hE
  · exact absurd hE (by simp)
  · split at hE
    · exact absurd hE (by simp)
    · split at hE
      · exact absurd hE (by simp)
      · split at hE
        · exact absurd hE (by simp)
        · rename_i u hne hfro hbal
          simp only [Except.ok.injEq] at hE
          subst hE
          obtain ⟨h0, h1⟩ := hinv
          exact ⟨by simp; omega, by simp; omega⟩

theorem refundFunds_ok_inv (a : Int) (acct : Option UserW) (v : UserW)
    (hinv : WalletInv acct) (hE : refundFunds a acct = .ok v) : WalletInv (some v) := by
  unfold refundFunds at hE
  split at hE
  · exact absurd hE (by simp)
  · split at hE
    · exact absurd hE (by simp)
    · split at hE
      · exact absurd hE (by simp)
      · rename_i u hne hfro
        simp only [Except.ok.injEq] at hE
        subst hE
        obtain ⟨h0, h1⟩ := hinv
        exact ⟨by simp; omega, by simp; omega⟩

theorem applyOp_inv (op : WalletOp) (acct : Option UserW)
    (hinv : WalletInv acct) : WalletInv (applyOp op acct) := by
  unfold applyOp
  cases op with
  | lock a =>
    dsimp only
    cases hE : lockFunds a acct with
    | ok v => exact lockFunds_ok_inv a acct v hinv hE
    | error e => exact hinv
  | deduct a =>
    dsimp only
    cases hE : deductFunds a acct with
    | ok v => exact deductFunds_ok_inv a acct v hinv hE
    | error e => exact hinv
  | refund a =>
    dsimp only
    cases hE : refundFunds a acct with
    | ok v => exact refundFunds_ok_inv a acct v hinv hE
    | error e => exact hinv

/-- **C2.** The invariant `balance >= frozenFunds >= 0` is preserved by every
single Ledger operation (`lockFunds`, `deductFunds`, `refundFunds`; a failed
operation leaves the state unchanged), and hence by every sequence of
Ledger operations. -/
theorem C2_wallet_invariant :
    (∀ (op : WalletOp) (acct : Option UserW),
      WalletInv acct → WalletInv (applyOp op acct)) ∧
    (∀ (ops : List WalletOp) (acct : Option UserW),
      WalletInv acct → WalletInv (runOps ops acct)) := by
  refine ⟨applyOp_inv, ?_⟩
  intro ops
  induction ops with
  | nil => intro acct h; exact h
  | cons op rest ih =>
    intro acct h
    exact ih (applyOp op acct) (applyOp_inv op acct h)

theorem C2_wallet_invariant_witness :
    WalletInv (runOps [.lock 500, .lock 300, .deduct 700, .refund 100]
      (some ⟨1000, 0⟩)) :=
  C2_wallet_invariant.2 _ (some ⟨1000, 0⟩) (by decide)

/-- **C3.** Escrow is a single conditional compare-and-update
(`findOneAndUpdate` with the `$expr` availability check), so each call is
one atomic step and any interleaving of `N` concurrent `Escrow` calls
against one user with balance `B`, frozen funds `0` (available balance `B`)
and per-call amount `a > 0` is the sequence `runLocks`: exactly
`min N (floor (B / a))` of the calls succeed — in particular exactly
`floor (B / a)` when `N ≥ floor (B / a)` — and every failed call fails with
`InsufficientFunds`. -/
theorem C3_concurrent_escrow (B a n : Nat) (ha : 0 < a) :
    ((runLocks (a : Int) n (some ⟨(B : Int), 0⟩)).2.countP lockOk) = min n (B / a) ∧
    (B / a ≤ n →
      ((runLocks (a : Int) n (some ⟨(B : Int), 0⟩)).2.countP lockOk) = B / a) ∧
    (∀ r ∈ (runLocks (a : Int) n (some ⟨(B : Int), 0⟩)).2,
      lockOk r = true ∨ r = .error .insufficientFunds) := by
  have hcount := runLocks_count a ha n (B : Int) 0
  have hB : ((B : Int) - 0).toNat = B := by omega
  rw [hB] at hcount
  refine ⟨hcount, ?_, ?_⟩
  · intro hn
    rw [hcount]
    omega
  · intro r hr
    exact runLocks_errors a ha n _ r hr

theorem C3_concurrent_escrow_witness :
    (0 < 300) ∧
      ((runLocks (300 : Int) 5 (some ⟨1000, 0⟩)).2.countP lockOk) = 3 := by
  refine ⟨by decide, ?_⟩
  have h := (C3_concurrent_escrow 1000 300 5 (by decide)).2.1 (by decide)
  simpa using h

/-! ## Auction data model (src/models) and AuctionService

A single auction is in play for `placeBid` / `processRoundEnd` (the service
loads it by id; other auctions are untouched by those operations).  User
ids and bid ids are `Nat`; times are `Int` milliseconds.  The Redis
leaderboard of a round (`auction:<id>:round:<n>`) is a list of
`(userId, amount)` entries that `zadd` keeps sorted descending by score,
so `zrevrange 0 (k-1)` is `List.take k`. -/

inductive RoundStatus
  | pending | active | finalizing | completed
deriving DecidableEq

inductive AuctionStatus
  | pending | active | completed | cancelled
deriving DecidableEq

inductive BidStatus
  | active | won | lost | carriedOver | cancelled | refunded
deriving DecidableEq

/-- A `winners` entry of a round. -/
structure RoundWinner where
  userId : Nat
  bidId : Nat
  amount : Int
  rank : Nat
  wonAt : Int
deriving DecidableEq

structure Round where
  roundNumber : Nat
  startTime : Int
  endTime : Int
  status : RoundStatus
  itemsInRound : Nat
  winners : List RoundWinner
  extendedCount : Nat
deriving DecidableEq

structure AuctionData where
  status : AuctionStatus
  totalRounds : Nat
  currentRound : Nat
  itemsPerRound : Nat
  rounds : List Round
deriving DecidableEq

/-- A `Bid` document. -/
structure BidR where
  id : Nat
  userId : Nat
  amount : Int
  status : BidStatus
  roundNumber : Nat
  originalRound : Nat
  isCarriedOver : Bool
  wonAt : Option Int
  refundedAt : Option Int
deriving DecidableEq

/-- An `Item` document (presentational metadata omitted). -/
structure ItemR where
  serialNumber : Nat
  ownerId : Option Nat
  roundWon : Option Nat
  wonAt : Option Int
  bidId : Option Nat
deriving DecidableEq

/-- The state touched by `AuctionService.placeBid` / `processRoundEnd`:
ledger, the auction document, bid book, items, per-round leaderboards and
the id for the next created bid. -/
structure SState where
  users : Nat → Option UserW
  auction : AuctionData
  bids : List BidR
  items : List ItemR
  boards : Nat → List (Nat × Int)
  nextBidId : Nat

inductive SvcError
  | invalidBidAmount | auctionNotFound | auctionNotActive | roundNotActive
  | insufficientFunds | userNotFound
deriving DecidableEq

def WalletError.toSvc : WalletError → SvcError
  | .insufficientFunds => SvcError.insufficientFunds
  | .userNotFound => SvcError.userNotFound

/-- `config` (src/config/index.ts): anti-snipe window and extension in
seconds. -/
structure Config where
  antiSnipeWindowSeconds : Int
  antiSnipeExtensionSeconds : Int
deriving DecidableEq

/-- The env-var defaults (`'30'`, `'30'`). -/
def defaultConfig : Config := ⟨30, 30⟩

structure PlaceBidResult where
  bidId : Nat
  bidAmount : Int
  roundNumber : Nat
  roundExtended : Bool
  newEndTime : Option Int
deriving DecidableEq

def setUser (us : Nat → Option UserW) (u : Nat) (w : UserW) : Nat → Option UserW :=
  fun v => if v = u then some w else us v

def setBoard (bs : Nat → List (Nat × Int)) (n : Nat) (l : List (Nat × Int)) :
    Nat → List (Nat × Int) :=
  fun m => if m = n then l else bs m

/-- Replace the first element satisfying `p` by its image under `f`
(mongoose `updateOne` / positional `$` update semantics). -/
def updateFirst (p : α → Bool) (f : α → α) : List α → List α
  | [] => []
  | x :: xs => if p x then f x :: xs else x :: updateFirst p f xs

/-- The `Bid.findOne` filter `{userId, status: {$in: [ACTIVE, CARRIED_OVER]}}`. -/
def isLiveBid (u : Nat) (b : BidR) : Bool :=
  decide (b.userId = u) &&
    (decide (b.status = BidStatus.active) || decide (b.status = BidStatus.carriedOver))

def findLiveBid (u : Nat) (bs : List BidR) : Option BidR := bs.find? (isLiveBid u)

/-- `findActiveRound`: first round with `status === ACTIVE`,
`startTime <= now` and `endTime > now`. -/
def isActiveNow (now : Int) (r : Round) : Bool :=
  decide (r.status = RoundStatus.active) && decide (r.startTime ≤ now) &&
    decide (now < r.endTime)

def findActiveRound (now : Int) (rs : List Round) : Option Round :=
  rs.find? (isActiveNow now)

/-- `auction.rounds.find(r => r.roundNumber === n)`. -/
def findRound (n : Nat) (rs : List Round) : Option Round :=
  rs.find? (fun r => decide (r.roundNumber = n))

/-- Positional update of the first round whose `roundNumber` is `n`. -/
def updRound (n : Nat) (f : Round → Round) (rs : List Round) : List Round :=
  updateFirst (fun r => decide (r.roundNumber = n)) f rs

/-- Redis `ZADD`: replace the member's entry, keeping the list sorted
descending by score. -/
def zinsert (e : Nat × Int) : List (Nat × Int) → List (Nat × Int)
  | [] => [e]
  | x :: xs => if x.2 ≤ e.2 then e :: x :: xs else x :: zinsert e xs

def zadd (u : Nat) (score : Int) (l : List (Nat × Int)) : List (Nat × Int) :=
  zinsert (u, score) (l.filter (fun x => decide (x.1 ≠ u)))

/-- Anti-snipe step of `placeBid`: let `timeUntilEnd = endTime - now`; if
`0 < timeUntilEnd <= window` then set the round's `endTime` to
`endTime + extension` and `$inc` its `extendedCount`. -/
def applyAntiSnipe (cfg : Config) (now : Int) (r : Round) (a : AuctionData) :
    AuctionData × Bool × Option Int :=
  if 0 < r.endTime - now ∧ r.endTime - now ≤ cfg.antiSnipeWindowSeconds * 1000 then
    let newEnd := r.endTime + cfg.antiSnipeExtensionSeconds * 1000
    let extend : Round → Round :=
      fun rr => { rr with endTime := newEnd, extendedCount := rr.extendedCount + 1 }
    ({ a with rounds := updRound r.roundNumber extend a.rounds }, true, some newEnd)
  else (a, false, none)

/-- Tail of `placeBid` after the bid upsert: anti-snipe check, then `zadd`
of the bid's new total amount onto the active round's leaderboard. -/
def finishBid (cfg : Config) (now : Int) (r : Round) (userId bidId : Nat)
    (total : Int) (s1 : SState) : SState × PlaceBidResult :=
  let res := applyAntiSnipe cfg now r s1.auction
  ({ s1 with
      auction := res.1,
      boards := setBoard s1.boards r.roundNumber
        (zadd userId total (s1.boards r.roundNumber)) },
   ⟨bidId, total, r.roundNumber, res.2.1, res.2.2⟩)

/-- `AuctionService.placeBid`.  (The inner re-check `amount <= 0` of the
increment branch is unreachable — the same guard already ran — and is
omitted.) -/
def placeBid (cfg : Config) (now : Int) (userId : Nat) (amount : Int) (s : SState) :
    Except SvcError (SState × PlaceBidResult) :=
  if amount ≤ 0 then .error .invalidBidAmount
  else if s.auction.status ≠ AuctionStatus.active then .error .auctionNotActive
  else
    match findActiveRound now s.auction.rounds with
    | none => .error .roundNotActive
    | some r =>
      match findLiveBid userId s.bids with
      | some b =>
        match lockFunds amount (s.users userId) with
        | .error e => .error e.toSvc
        | .ok w =>
          let s1 : SState := { s with
            users := setUser s.users userId w,
            bids := updateFirst (isLiveBid userId)
              (fun bb => { bb with amount := bb.amount + amount }) s.bids }
          .ok (finishBid cfg now r userId b.id (b.amount + amount) s1)
      | none =>
        match lockFunds amount (s.users userId) with
        | .error e => .error e.toSvc
        | .ok w =>
          let nb : BidR := { id := s.nextBidId, userId := userId, amount := amount,
                             status := BidStatus.active, roundNumber := r.roundNumber,
                             originalRound := r.roundNumber, isCarriedOver := false,
                             wonAt := none, refundedAt := none }
          let s1 : SState := { s with
            users := setUser s.users userId w,
            bids := s.bids ++ [nb],
            nextBidId := s.nextBidId + 1 }
          .ok (finishBid cfg now r userId nb.id amount s1)

/-- Projection helpers used to state closed witness instances. -/
def exBidState (s : SState) : Except SvcError (SState × PlaceBidResult) → SState
  | .ok p => p.1
  | .error _ => s

def exBidRes : Except SvcError (SState × PlaceBidResult) → PlaceBidResult
  | .ok p => p.2
  | .error _ => ⟨0, 0, 0, false, none⟩

def svcOk {α : Type} : Except SvcError α → Bool
  | .ok _ => true
  | .error _ => false

/-! ### List helper lemmas -/

theorem find?_updateFirst_pres {α : Type} (p : α → Bool) (f : α → α)
    (hf : ∀ x, p (f x) = p x) :
    ∀ l : List α, (updateFirst p f l).find? p = (l.find? p).map f := by
  intro l
  induction l with
  | nil => rfl
  | cons x xs ih =>
    by_cases hx : p x = true
    · unfold updateFirst
      rw [if_pos hx, List.find?_cons_of_pos _ (by rw [hf]; exact hx),
        List.find?_cons_of_pos _ hx]
      rfl
    · unfold updateFirst
      rw [if_neg hx, List.find?_cons_of_neg _ hx, List.find?_cons_of_neg _ hx]
      exact ih

theorem updateFirst_of_not_mem_pred {α : Type} (p : α → Bool) (f : α → α) :
    ∀ l : List α, (∀ x ∈ l, p x = false) → updateFirst p f l = l := by
  intro l
  induction l with
  | nil => intro _; rfl
  | cons x xs ih =>
    intro h
    unfold updateFirst
    rw [if_neg (by simp [h x (List.mem_cons_self x xs)])]
    rw [ih (fun y hy => h y (List.mem_cons_of_mem x hy))]

theorem mem_updateFirst_of_not_pred {α : Type} (p : α → Bool) (f : α → α) :
    ∀ l : List α, ∀ x ∈ l, p x = false → x ∈ updateFirst p f l := by
  intro l
  induction l with
  | nil => intro x hx; cases hx
  | cons y ys ih =>
    intro x hx hpx
    rcases List.mem_cons.mp hx with h | h
    · subst h
      unfold updateFirst
      rw [if_neg (by simp [hpx])]
      exact List.mem_cons_self _ _
    · unfold updateFirst
      by_cases hy : p y = true
      · rw [if_pos hy]; exact List.mem_cons_of_mem _ h
      · rw [if_neg hy]; exact List.mem_cons_of_mem _ (ih x h hpx)

theorem findRound_mem_nodup (r : Round) :
    ∀ rs : List Round, (rs.map Round.roundNumber).Nodup → r ∈ rs →
      findRound r.roundNumber rs = some r := by
  intro rs
  induction rs with
  | nil => intro _ hr; cases hr
  | cons x xs ih =>
    intro hnd hr
    have hnd' : (∀ y ∈ xs, ¬ y.roundNumber = x.roundNumber) ∧
        (xs.map Round.roundNumber).Nodup := by simpa using hnd
    rcases List.mem_cons.mp hr with hx | hx
    · subst hx
      unfold findRound
      rw [List.find?_cons_of_pos _ (by simp)]
    · have hne : ¬ x.roundNumber = r.roundNumber := fun he => hnd'.1 r hx he.symm
      unfold findRound
      rw [List.find?_cons_of_neg _ (by simp [hne])]
      exact ih hnd'.2 hx

theorem findRound_updRound_eq (r : Round) (f : Round → Round)
    (hf : (f r).roundNumber = r.roundNumber) :
    ∀ rs : List Round, (rs.map Round.roundNumber).Nodup → r ∈ rs →
      findRound r.roundNumber (updRound r.roundNumber f rs) = some (f r) := by
  intro rs
  induction rs with
  | nil => intro _ hr; cases hr
  | cons x xs ih =>
    intro hnd hr
    have hnd' : (∀ y ∈ xs, ¬ y.roundNumber = x.roundNumber) ∧
        (xs.map Round.roundNumber).Nodup := by simpa using hnd
    rcases List.mem_cons.mp hr with hx | hx
    · subst hx
      unfold updRound updateFirst
      rw [if_pos (by simp)]
      unfold findRound
      rw [List.find?_cons_of_pos _ (by simp [hf])]
    · have hne : ¬ x.roundNumber = r.roundNumber := fun he => hnd'.1 r hx he.symm
      unfold updRound updateFirst
      rw [if_neg (by simp [hne])]
      unfold findRound
      rw [List.find?_cons_of_neg _ (by simp [hne])]
      exact ih hnd'.2 hx

theorem finishBid_spec (cfg : Config) (now : Int) (r : Round) (userId bidId : Nat)
    (total : Int) (s1 : SState)
    (hnodup : (s1.auction.rounds.map Round.roundNumber).Nodup)
    (hr : r ∈ s1.auction.rounds) :
    ((finishBid cfg now r userId bidId total s1).2.roundExtended = true ↔
      (0 < r.endTime - now ∧ r.endTime - now ≤ cfg.antiSnipeWindowSeconds * 1000)) ∧
    ((finishBid cfg now r userId bidId total s1).2.roundExtended = true →
      findRound r.roundNumber (finishBid cfg now r userId bidId total s1).1.auction.rounds =
        some { r with endTime := r.endTime + cfg.antiSnipeExtensionSeconds * 1000,
                      extendedCount := r.extendedCount + 1 } ∧
      (finishBid cfg now r userId bidId total s1).2.newEndTime =
        some (r.endTime + cfg.antiSnipeExtensionSeconds * 1000)) ∧
    ((finishBid cfg now r userId bidId total s1).2.roundExtended = false →
      findRound r.roundNumber (finishBid cfg now r userId bidId total s1).1.auction.rounds =
        some r ∧
      (finishBid cfg now r userId bidId total s1).2.newEndTime = none) ∧
    (finishBid cfg now r userId bidId total s1).1.users = s1.users ∧
    (finishBid cfg now r userId bidId total s1).1.bids = s1.bids ∧
    (finishBid cfg now r userId bidId total s1).1.items = s1.items ∧
    (finishBid cfg now r userId bidId total s1).2.bidId = bidId ∧
    (finishBid cfg now r userId bidId total s1).2.bidAmount = total ∧
    (finishBid cfg now r userId bidId total s1).2.roundNumber = r.roundNumber := by
  unfold finishBid applyAntiSnipe
  by_cases hcond : 0 < r.endTime - now ∧ r.endTime - now ≤ cfg.antiSnipeWindowSeconds * 1000
  · rw [if_pos hcond]
    refine ⟨by simpa using hcond, ?_, by simp, rfl, rfl, rfl, rfl, rfl, rfl⟩
    intro _
    exact ⟨findRound_updRound_eq r _ rfl s1.auction.rounds hnodup hr, rfl⟩
  · rw [if_neg hcond]
    refine ⟨by simpa using hcond, by simp, ?_, rfl, rfl, rfl, rfl, rfl, rfl⟩
    intro _
    exact ⟨findRound_mem_nodup r s1.auction.rounds hnodup hr, rfl⟩

theorem finishBid_frame (cfg : Config) (now : Int) (r : Round) (userId bidId : Nat)
    (total : Int) (s1 : SState) :
    (finishBid cfg now r userId bidId total s1).1.users = s1.users ∧
    (finishBid cfg now r userId bidId total s1).1.bids = s1.bids ∧
    (finishBid cfg now r userId bidId total s1).1.items = s1.items ∧
    (finishBid cfg now r userId bidId total s1).2.bidId = bidId ∧
    (finishBid cfg now r userId bidId total s1).2.bidAmount = total := by
  unfold finishBid applyAntiSnipe
  by_cases hcond : 0 < r.endTime - now ∧ r.endTime - now ≤ cfg.antiSnipeWindowSeconds * 1000
  · rw [if_pos hcond]
    exact ⟨rfl, rfl, rfl, rfl, rfl⟩
  · rw [if_neg hcond]
    exact ⟨rfl, rfl, rfl, rfl, rfl⟩

theorem placeBid_ok_finish (cfg : Config) (now : Int) (u : Nat) (amt : Int) (s : SState)
    (r : Round) (hfind : findActiveRound now s.auction.rounds = some r)
    (p : SState × PlaceBidResult) (hE : placeBid cfg now u amt s = .ok p) :
    ∃ (bidId : Nat) (total : Int) (s1 : SState),
      s1.auction = s.auction ∧ p = finishBid cfg now r u bidId total s1 := by
  unfold placeBid at hE
  rw [hfind] at hE
  by_cases h1 : amt ≤ 0
  · rw [if_pos h1] at hE; exact absurd hE (by simp)
  rw [if_neg h1] at hE
  by_cases h2 : s.auction.status ≠ AuctionStatus.active
  · rw [if_pos h2] at hE; exact absurd hE (by simp)
  rw [if_neg h2] at hE
  · cases hlb : findLiveBid u s.bids with
    | some b =>
      rw [hlb] at hE
      cases hw : lockFunds amt (s.users u) with
      | error e => rw [hw] at hE; exact absurd hE (by simp)
      | ok w =>
        rw [hw] at hE
        injection hE with h
        refine ⟨b.id, b.amount + amt, _, ?_, h.symm⟩
        rfl
    | none =>
      rw [hlb] at hE
      cases hw : lockFunds amt (s.users u) with
      | error e => rw [hw] at hE; exact absurd hE (by simp)
      | ok w =>
        rw [hw] at hE
        injection hE with h
        refine ⟨s.nextBidId, amt, _, ?_, h.symm⟩
        rfl

/-- **C8.** For every successful bid placement (against a known active
round, with distinct round numbers), the round deadline is extended exactly
when `0 < round.endTime - now <= antiSnipeWindow`; on extension the
round's `endTime` grows by `antiSnipeExtension`, its `extendedCount` grows
by 1, and the result reports `roundExtended` with the new end time; with
more time remaining than the window nothing changes and no extension is
reported. -/
theorem C8_anti_snipe (cfg : Config) (now : Int) (u : Nat) (amt : Int) (s : SState)
    (r : Round)
    (hnodup : (s.auction.rounds.map Round.roundNumber).Nodup)
    (hfind : findActiveRound now s.auction.rounds = some r)
    (hok : svcOk (placeBid cfg now u amt s) = true) :
    ((exBidRes (placeBid cfg now u amt s)).roundExtended = true ↔
      (0 < r.endTime - now ∧ r.endTime - now ≤ cfg.antiSnipeWindowSeconds * 1000)) ∧
    ((exBidRes (placeBid cfg now u amt s)).roundExtended = true →
      findRound r.roundNumber (exBidState s (placeBid cfg now u amt s)).auction.rounds =
        some { r with endTime := r.endTime + cfg.antiSnipeExtensionSeconds * 1000,
                      extendedCount := r.extendedCount + 1 } ∧
      (exBidRes (placeBid cfg now u amt s)).newEndTime =
        some (r.endTime + cfg.antiSnipeExtensionSeconds * 1000)) ∧
    ((exBidRes (placeBid cfg now u amt s)).roundExtended = false →
      findRound r.roundNumber (exBidState s (placeBid cfg now u amt s)).auction.rounds =
        some r ∧
      (exBidRes (placeBid cfg now u amt s)).newEndTime = none) := by
  cases hP : placeBid cfg now u amt s with
  | error e => rw [hP] at hok; exact absurd hok (by simp [svcOk])
  | ok p =>
    obtain ⟨bidId, total, s1, hs1, hp⟩ := placeBid_ok_finish cfg now u amt s r hfind p hP
    subst hp
    have hrmem : r ∈ s.auction.rounds := List.mem_of_find?_eq_some hfind
    have hspec := finishBid_spec cfg now r u bidId total s1
      (by rw [hs1]; exact hnodup) (by rw [hs1]; exact hrmem)
    exact ⟨hspec.1, hspec.2.1, hspec.2.2.1⟩

/-- Concrete auction state for witness instances: one user (id 1, balance
1000, frozenFunds 500), a single active round lasting 120000 ms with 3
item slots, one active bid of 500 by user 1. -/
def exUsers : Nat → Option UserW := fun v => if v = 1 then some ⟨1000, 500⟩ else none

def exRound : Round := ⟨1, 0, 120000, RoundStatus.active, 3, [], 0⟩

def exBid : BidR := ⟨0, 1, 500, BidStatus.active, 1, 1, false, none, none⟩

def exS : SState :=
  ⟨exUsers, ⟨AuctionStatus.active, 5, 1, 3, [exRound]⟩, [exBid], [], fun _ => [], 1⟩

theorem C8_anti_snipe_witness :
    ((exBidRes (placeBid defaultConfig 80000 1 300 exS)).roundExtended = true ↔
      (0 < exRound.endTime - 80000 ∧
        exRound.endTime - 80000 ≤ defaultConfig.antiSnipeWindowSeconds * 1000)) ∧
    ((exBidRes (placeBid defaultConfig 80000 1 300 exS)).roundExtended = true →
      findRound exRound.roundNumber
          (exBidState exS (placeBid defaultConfig 80000 1 300 exS)).auction.rounds =
        some { exRound with
                endTime := exRound.endTime + defaultConfig.antiSnipeExtensionSeconds * 1000,
                extendedCount := exRound.extendedCount + 1 } ∧
      (exBidRes (placeBid defaultConfig 80000 1 300 exS)).newEndTime =
        some (exRound.endTime + defaultConfig.antiSnipeExtensionSeconds * 1000)) ∧
    ((exBidRes (placeBid defaultConfig 80000 1 300 exS)).roundExtended = false →
      findRound exRound.roundNumber
          (exBidState exS (placeBid defaultConfig 80000 1 300 exS)).auction.rounds =
        some exRound ∧
      (exBidRes (placeBid defaultConfig 80000 1 300 exS)).newEndTime = none) :=
  C8_anti_snipe defaultConfig 80000 1 300 exS exRound (by decide) (by decide) (by decide)

/-- **C9.** On an active auction with an active round: if the user already
has a bid with status Active/CarriedOver, the given amount is an increment
(only the increment is escrowed, the existing bid's amount grows by that
increment); otherwise the full amount is escrowed and a new Bid is created
with status Active and `roundNumber = originalRound =` the current round
number. -/
theorem C9_increment_or_create (cfg : Config) (now : Int) (u : Nat) (amt : Int)
    (s : SState) (r : Round)
    (hpos : 0 < amt)
    (hact : s.auction.status = AuctionStatus.active)
    (hfind : findActiveRound now s.auction.rounds = some r) :
    (∀ b : BidR, findLiveBid u s.bids = some b →
      ∀ w : UserW, s.users u = some w → amt ≤ w.balance - w.frozenFunds →
        svcOk (placeBid cfg now u amt s) = true ∧
        (exBidState s (placeBid cfg now u amt s)).users u =
          some ⟨w.balance, w.frozenFunds + amt⟩ ∧
        findLiveBid u (exBidState s (placeBid cfg now u amt s)).bids =
          some { b with amount := b.amount + amt } ∧
        (exBidRes (placeBid cfg now u amt s)).bidAmount = b.amount + amt ∧
        (exBidRes (placeBid cfg now u amt s)).bidId = b.id) ∧
    (findLiveBid u s.bids = none →
      ∀ w : UserW, s.users u = some w → amt ≤ w.balance - w.frozenFunds →
        svcOk (placeBid cfg now u amt s) = true ∧
        (exBidState s (placeBid cfg now u amt s)).users u =
          some ⟨w.balance, w.frozenFunds + amt⟩ ∧
        ({ id := s.nextBidId, userId := u, amount := amt, status := BidStatus.active,
           roundNumber := r.roundNumber, originalRound := r.roundNumber,
           isCarriedOver := false, wonAt := none, refundedAt := none } : BidR) ∈
          (exBidState s (placeBid cfg now u amt s)).bids ∧
        (exBidRes (placeBid cfg now u amt s)).bidAmount = amt) := by
  constructor
  · intro b hb w hw havail
    have hP : placeBid cfg now u amt s =
        .ok (finishBid cfg now r u b.id (b.amount + amt)
          { s with users := setUser s.users u ⟨w.balance, w.frozenFunds + amt⟩,
                   bids := updateFirst (isLiveBid u)
                     (fun bb => { bb with amount := bb.amount + amt }) s.bids }) := by
      unfold placeBid
      rw [if_neg (by omega), if_neg (by simp [hact]), hfind, hb, hw,
        lockFunds_pos_some amt hpos, if_neg (by omega)]
    rw [hP]
    obtain ⟨husers, hbids, hitems, hbid, hamt⟩ :=
      finishBid_frame cfg now r u b.id (b.amount + amt)
        { s with users := setUser s.users u ⟨w.balance, w.frozenFunds + amt⟩,
                 bids := updateFirst (isLiveBid u)
                   (fun bb => { bb with amount := bb.amount + amt }) s.bids }
    refine ⟨rfl, ?_, ?_, ?_, ?_⟩
    · show (finishBid cfg now r u b.id (b.amount + amt) _).1.users u = _
      rw [husers]
      simp [setUser]
    · show findLiveBid u (finishBid cfg now r u b.id (b.amount + amt) _).1.bids = _
      rw [hbids]
      show findLiveBid u (updateFirst (isLiveBid u)
        (fun bb => { bb with amount := bb.amount + amt }) s.bids) = _
      unfold findLiveBid
      rw [find?_updateFirst_pres (isLiveBid u)
        (fun bb => { bb with amount := bb.amount + amt }) (fun x => rfl) s.bids]
      unfold findLiveBid at hb
      rw [hb]
      rfl
    · exact hamt
    · exact hbid
  · intro hnb w hw havail
    have hP : placeBid cfg now u amt s =
        .ok (finishBid cfg now r u s.nextBidId amt
          { s with users := setUser s.users u ⟨w.balance, w.frozenFunds + amt⟩,
                   bids := s.bids ++
                     [{ id := s.nextBidId, userId := u, amount := amt,
                        status := BidStatus.active, roundNumber := r.roundNumber,
                        originalRound := r.roundNumber, isCarriedOver := false,
                        wonAt := none, refundedAt := none }],
                   nextBidId := s.nextBidId + 1 }) := by
      unfold placeBid
      rw [if_neg (by omega), if_neg (by simp [hact]), hfind, hnb, hw,
        lockFunds_pos_some amt hpos, if_neg (by omega)]
    rw [hP]
    obtain ⟨husers, hbids, hitems, hbid, hamt⟩ :=
      finishBid_frame cfg now r u s.nextBidId amt
        { s with users := setUser s.users u ⟨w.balance, w.frozenFunds + amt⟩,
                 bids := s.bids ++
                   [{ id := s.nextBidId, userId := u, amount := amt,
                      status := BidStatus.active, roundNumber := r.roundNumber,
                      originalRound := r.roundNumber, isCarriedOver := false,
                      wonAt := none, refundedAt := none }],
                 nextBidId := s.nextBidId + 1 }
    refine ⟨rfl, ?_, ?_, ?_⟩
    · show (finishBid cfg now r u s.nextBidId amt _).1.users u = _
      rw [husers]
      simp [setUser]
    · show _ ∈ (finishBid cfg now r u s.nextBidId amt _).1.bids
      rw [hbids]
      exact List.mem_append_right _ (List.mem_singleton_self _)
    · exact hamt

theorem C9_increment_or_create_witness :
    svcOk (placeBid defaultConfig 100000 1 300 exS) = true ∧
    (exBidState exS (placeBid defaultConfig 100000 1 300 exS)).users 1 =
      some ⟨1000, 800⟩ ∧
    findLiveBid 1 (exBidState exS (placeBid defaultConfig 100000 1 300 exS)).bids =
      some { exBid with amount := exBid.amount + 300 } ∧
    (exBidRes (placeBid defaultConfig 100000 1 300 exS)).bidAmount = exBid.amount + 300 ∧
    (exBidRes (placeBid defaultConfig 100000 1 300 exS)).bidId = exBid.id :=
  (C9_increment_or_create defaultConfig 100000 1 300 exS exRound (by decide) (by decide)
    (by decide)).1 exBid (by decide) ⟨1000, 500⟩ (by decide) (by decide)

/-! ## Round settlement (AuctionService.processRoundEnd) -/

structure SettleResult where
  winnersCount : Nat
  losersCarriedOver : Nat
  losersRefunded : Nat
deriving DecidableEq

def zeroSettle : SettleResult := ⟨0, 0, 0⟩

/-- `Bid.findOneAndUpdate({userId, status in [ACTIVE, CARRIED_OVER]},
{$set: {status: WON, wonAt: now}}, {new: true})`: returns the updated
document and the bid book with the first matching bid updated, or `none`
when no bid matches. -/
def markWonFirst (now : Int) (u : Nat) (bs : List BidR) :
    Option (BidR × List BidR) :=
  match findLiveBid u bs with
  | none => none
  | some b =>
    some ({ b with status := BidStatus.won, wonAt := some now },
          updateFirst (isLiveBid u)
            (fun bb => { bb with status := BidStatus.won, wonAt := some now }) bs)

/-- `Item.findOneAndUpdate({auctionId, serialNumber}, {$set: {ownerId,
roundWon, wonAt, bidId}}, {upsert: true})`. -/
def upsertItem (serial : Nat) (owner : Nat) (rn : Nat) (now : Int) (bidId : Nat) :
    List ItemR → List ItemR
  | [] => [⟨serial, some owner, some rn, some now, some bidId⟩]
  | it :: its =>
    if it.serialNumber = serial then
      { it with ownerId := some owner, roundWon := some rn, wonAt := some now,
                bidId := some bidId } :: its
    else it :: upsertItem serial owner rn now bidId its

/-- Accumulator of the winner loop of `processRoundEnd`. -/
structure WinAcc where
  users : Nat → Option UserW
  bids : List BidR
  items : List ItemR
  recs : List RoundWinner
  count : Nat

/-- The winner loop of `processRoundEnd`: for each ranked entry, mark the
bidder's live bid Won, settle (`deductFunds`) the winning amount, assign
the item with serial `(roundNumber-1)*itemsInRound + rankIdx + 1`, and
append a RoundWinner record; entries with no matching live bid are
skipped (rank index still advances). -/
def processWinners (now : Int) (rn k : Nat) :
    List (Nat × Int) → Nat → WinAcc → Except SvcError WinAcc
  | [], _, acc => .ok acc
  | e :: rest, rankIdx, acc =>
    match markWonFirst now e.1 acc.bids with
    | none => processWinners now rn k rest (rankIdx + 1) acc
    | some (b, bids1) =>
      match deductFunds e.2 (acc.users e.1) with
      | .error err => .error err.toSvc
      | .ok w =>
        processWinners now rn k rest (rankIdx + 1)
          { users := setUser acc.users e.1 w
            bids := bids1
            items := upsertItem ((rn - 1) * k + rankIdx + 1) e.1 rn now b.id acc.items
            recs := acc.recs ++ [⟨e.1, b.id, e.2, rankIdx + 1, now⟩]
            count := acc.count + 1 }

/-- Final-round loser loop: mark the first live bid Refunded, then release
(`refundFunds`) the escrowed amount. -/
def processLosersRefund (now : Int) :
    List (Nat × Int) → (Nat → Option UserW) → List BidR → Nat →
      Except SvcError ((Nat → Option UserW) × List BidR × Nat)
  | [], us, bs, c => .ok (us, bs, c)
  | e :: rest, us, bs, c =>
    let bs1 := updateFirst (isLiveBid e.1)
      (fun b => { b with status := BidStatus.refunded, refundedAt := some now }) bs
    match refundFunds e.2 (us e.1) with
    | .error err => .error err.toSvc
    | .ok w => processLosersRefund now rest (setUser us e.1 w) bs1 (c + 1)

/-- Non-final-round loser loop: mark the first live bid CarriedOver with
`roundNumber := nextRoundNumber` and `isCarriedOver := true`; no funds
movement. -/
def processLosersCarry (nr : Nat) :
    List (Nat × Int) → List BidR → Nat → List BidR × Nat
  | [], bs, c => (bs, c)
  | e :: rest, bs, c =>
    processLosersCarry nr rest
      (updateFirst (isLiveBid e.1)
        (fun b => { b with status := BidStatus.carriedOver, roundNumber := nr,
                           isCarriedOver := true }) bs)
      (c + 1)

def setRoundStatus (n : Nat) (st : RoundStatus) (rs : List Round) : List Round :=
  updRound n (fun r => { r with status := st }) rs

def setRoundWinners (n : Nat) (ws : List RoundWinner) (rs : List Round) : List Round :=
  updRound n (fun r => { r with winners := ws }) rs

/-- Redis pipeline of `ZADD`s re-seeding the next round's leaderboard. -/
def zaddAll (entries : List (Nat × Int)) (l : List (Nat × Int)) : List (Nat × Int) :=
  entries.foldl (fun acc e => zadd e.1 e.2 acc) l

/-- The leaderboard after `ZREM`ing the winner members. -/
def boardLosers (winnerIds : List Nat) (board : List (Nat × Int)) :
    List (Nat × Int) :=
  board.filter (fun e => decide (e.1 ∉ winnerIds))

/-- `AuctionService.processRoundEnd`: idempotence guard, mark the round
Finalizing, settle the top-`itemsInRound` leaderboard entries as winners,
store the RoundWinner records, then refund (final round, auction →
Completed) or carry over (otherwise, next round → Active and
`currentRound := n+1`) the remaining leaderboard members, clear the
settled round's leaderboard and mark the round Completed. -/
def processRoundEnd (now : Int) (n : Nat) (s : SState) :
    Except SvcError (SState × SettleResult) :=
  match findRound n s.auction.rounds with
  | none => .error .roundNotActive
  | some round =>
    if round.status ≠ RoundStatus.active then .ok (s, zeroSettle)
    else
      let roundsFin := setRoundStatus n RoundStatus.finalizing s.auction.rounds
      let k := round.itemsInRound
      let winners := (s.boards n).take k
      match processWinners now n k winners 0 ⟨s.users, s.bids, s.items, [], 0⟩ with
      | .error e => .error e
      | .ok acc =>
        let roundsW := setRoundWinners n acc.recs roundsFin
        let losers := boardLosers (winners.map Prod.fst) (s.boards n)
        if s.auction.totalRounds ≤ n then
          match processLosersRefund now losers acc.users acc.bids 0 with
          | .error e => .error e
          | .ok (us, bs, refunded) =>
            let auF : AuctionData :=
              { s.auction with status := AuctionStatus.completed,
                               rounds := setRoundStatus n RoundStatus.completed roundsW }
            .ok ({ users := us, auction := auF, bids := bs, items := acc.items,
                   boards := setBoard s.boards n [], nextBidId := s.nextBidId },
                 ⟨acc.count, 0, refunded⟩)
        else
          let carry := processLosersCarry (n + 1) losers acc.bids 0
          let roundsN := setRoundStatus (n + 1) RoundStatus.active roundsW
          let auN : AuctionData :=
            { s.auction with currentRound := n + 1,
                             rounds := setRoundStatus n RoundStatus.completed roundsN }
          .ok ({ users := acc.users, auction := auN, bids := carry.1, items := acc.items,
                 boards := setBoard
                   (setBoard s.boards (n + 1) (zaddAll losers (s.boards (n + 1)))) n [],
                 nextBidId := s.nextBidId },
               ⟨acc.count, carry.2, 0⟩)

def exSetState (s : SState) : Except SvcError (SState × SettleResult) → SState
  | .ok p => p.1
  | .error _ => s

def exSetRes : Except SvcError (SState × SettleResult) → SettleResult
  | .ok p => p.2
  | .error _ => zeroSettle

/-- Per-entry precondition of settlement used in the theorems below: the
board member has a live bid and an existing wallet whose frozen funds and
balance cover the board amount. -/
def entryOK (users : Nat → Option UserW) (bids : List BidR) (e : Nat × Int) : Bool :=
  (findLiveBid e.1 bids).isSome &&
    match users e.1 with
    | some w => decide (0 < e.2) && decide (e.2 ≤ w.frozenFunds) && decide (e.2 ≤ w.balance)
    | none => false

/-! ### Settlement helper lemmas -/

theorem deductFunds_pos_some (a : Int) (ha : 0 < a) (u : UserW) :
    deductFunds a (some u) =
      if u.frozenFunds < a then .error .insufficientFunds
      else if u.balance < a then .error .insufficientFunds
      else .ok ⟨u.balance - a, u.frozenFunds - a⟩ := by
  unfold deductFunds
  rw [if_neg (by omega)]

theorem refundFunds_pos_some (a : Int) (ha : 0 < a) (u : UserW) :
    refundFunds a (some u) =
      if u.frozenFunds < a then .error .insufficientFunds
      else .ok ⟨u.balance, u.frozenFunds - a⟩ := by
  unfold refundFunds
  rw [if_neg (by omega)]

theorem isLiveBid_userId {u : Nat} {b : BidR} (h : isLiveBid u b = true) :
    b.userId = u := by
  simp only [isLiveBid, Bool.and_eq_true, decide_eq_true_eq] at h
  exact h.1

theorem isLiveBid_ne_false {u : Nat} {b : BidR} (h : ¬ b.userId = u) :
    isLiveBid u b = false := by
  simp [isLiveBid, h]

theorem setUser_self (us : Nat → Option UserW) (u : Nat) (w : UserW) :
    setUser us u w u = some w := by simp [setUser]

theorem setUser_other (us : Nat → Option UserW) (u : Nat) (w : UserW) (v : Nat)
    (h : ¬ v = u) : setUser us u w v = us v := by simp [setUser, h]

theorem find?_updateFirst_other {α : Type} (p q : α → Bool) (f : α → α)
    (h : ∀ x, p x = true → q (f x) = false ∧ q x = false) :
    ∀ l : List α, (updateFirst p f l).find? q = l.find? q := by
  intro l
  induction l with
  | nil => rfl
  | cons x xs ih =>
    by_cases hx : p x = true
    · unfold updateFirst
      rw [if_pos hx, List.find?_cons_of_neg _ (by simp [(h x hx).1]),
        List.find?_cons_of_neg _ (by simp [(h x hx).2])]
    · unfold updateFirst
      rw [if_neg hx]
      by_cases hq : q x = true
      · rw [List.find?_cons_of_pos _ hq, List.find?_cons_of_pos _ hq]
      · rw [List.find?_cons_of_neg _ hq, List.find?_cons_of_neg _ hq]
        exact ih

theorem updateFirst_mem_find? {α : Type} (p : α → Bool) (f : α → α) :
    ∀ l : List α, ∀ b : α, l.find? p = some b → f b ∈ updateFirst p f l := by
  intro l
  induction l with
  | nil => intro b hb; simp at hb
  | cons x xs ih =>
    intro b hb
    by_cases hx : p x = true
    · rw [List.find?_cons_of_pos _ hx] at hb
      injection hb with hb
      subst hb
      unfold updateFirst
      rw [if_pos hx]
      exact List.mem_cons_self _ _
    · rw [List.find?_cons_of_neg _ hx] at hb
      unfold updateFirst
      rw [if_neg hx]
      exact List.mem_cons_of_mem _ (ih b hb)

theorem upsertItem_self (serial : Nat) (o : Nat) (rn : Nat) (now : Int) (bid : Nat) :
    ∀ l : List ItemR, ∃ it ∈ upsertItem serial o rn now bid l,
      it.serialNumber = serial ∧ it.ownerId = some o ∧ it.roundWon = some rn ∧
      it.wonAt = some now ∧ it.bidId = some bid := by
  intro l
  induction l with
  | nil =>
    exact ⟨⟨serial, some o, some rn, some now, some bid⟩,
      List.mem_singleton_self _, rfl, rfl, rfl, rfl, rfl⟩
  | cons x xs ih =>
    by_cases hx : x.serialNumber = serial
    · refine ⟨{ x with ownerId := some o, roundWon := some rn, wonAt := some now,
                       bidId := some bid }, ?_, by simpa using hx, rfl, rfl, rfl, rfl⟩
      unfold upsertItem
      rw [if_pos hx]
      exact List.mem_cons_self _ _
    · obtain ⟨it, hmem, hfacts⟩ := ih
      refine ⟨it, ?_, hfacts⟩
      unfold upsertItem
      rw [if_neg hx]
      exact List.mem_cons_of_mem _ hmem

theorem upsertItem_frame (serial : Nat) (o : Nat) (rn : Nat) (now : Int) (bid : Nat) :
    ∀ l : List ItemR, ∀ it ∈ l, it.serialNumber ≠ serial →
      it ∈ upsertItem serial o rn now bid l := by
  intro l
  induction l with
  | nil => intro it hit; cases hit
  | cons x xs ih =>
    intro it hit hne
    by_cases hx : x.serialNumber = serial
    · unfold upsertItem
      rw [if_pos hx]
      rcases List.mem_cons.mp hit with h | h
      · subst h; exact absurd hx hne
      · exact List.mem_cons_of_mem _ h
    · unfold upsertItem
      rw [if_neg hx]
      rcases List.mem_cons.mp hit with h | h
      · subst h; exact List.mem_cons_self _ _
      · exact List.mem_cons_of_mem _ (ih it h hne)

theorem upsertItem_owner (serial : Nat) (o : Nat) (rn : Nat) (now : Int) (bid : Nat)
    (v : Nat) (hov : ¬ o = v) :
    ∀ l : List ItemR, (∀ it ∈ l, it.ownerId ≠ some v) →
      ∀ it ∈ upsertItem serial o rn now bid l, it.ownerId ≠ some v := by
  intro l
  induction l with
  | nil =>
    intro _ it hit
    rcases List.mem_singleton.mp hit with h
    subst h
    simp [hov]
  | cons x xs ih =>
    intro hl it hit
    by_cases hx : x.serialNumber = serial
    · unfold upsertItem at hit
      rw [if_pos hx] at hit
      rcases List.mem_cons.mp hit with h | h
      · subst h; simp [hov]
      · exact hl it (List.mem_cons_of_mem _ h)
    · unfold upsertItem at hit
      rw [if_neg hx] at hit
      rcases List.mem_cons.mp hit with h | h
      · subst h; exact hl it (List.mem_cons_self _ _)
      · exact ih (fun i hi => hl i (List.mem_cons_of_mem _ hi)) it h

theorem boardLosers_take_drop (k : Nat) :
    ∀ board : List (Nat × Int), (board.map Prod.fst).Nodup →
      boardLosers ((board.take k).map Prod.fst) board = board.drop k := by
  induction k with
  | zero =>
    intro board _
    simp [boardLosers]
  | succ k ih =>
    intro board hnd
    cases board with
    | nil => rfl
    | cons e rest =>
      have hnd' : (∀ b : Int, (e.1, b) ∉ rest) ∧
          (rest.map Prod.fst).Nodup := by simpa using hnd
      unfold boardLosers
      rw [List.take_succ_cons, List.map_cons]
      rw [List.filter_cons_of_neg (by simp)]
      have hcong : ∀ x ∈ rest,
          (decide (x.1 ∉ e.1 :: (rest.take k).map Prod.fst)) =
            (decide (x.1 ∉ (rest.take k).map Prod.fst)) := by
        intro x hx
        have hne : ¬ x.1 = e.1 := by
          intro he
          exact hnd'.1 x.2 (by rw [← he]; exact hx)
        simp [hne]
      rw [List.filter_congr hcong]
      have := ih rest hnd'.2
      unfold boardLosers at this
      rw [this]
      rfl

theorem entryOK_elim {us : Nat → Option UserW} {bs : List BidR} {e : Nat × Int}
    (hok : entryOK us bs e = true) :
    ∃ b, findLiveBid e.1 bs = some b ∧
      ∃ w, us e.1 = some w ∧ 0 < e.2 ∧ e.2 ≤ w.frozenFunds ∧ e.2 ≤ w.balance := by
  unfold entryOK at hok
  cases hfb : findLiveBid e.1 bs with
  | none => rw [hfb] at hok; simp at hok
  | some b =>
    rw [hfb] at hok
    cases hu : us e.1 with
    | none => rw [hu] at hok; simp at hok
    | some w =>
      rw [hu] at hok
      simp only [Option.isSome_some, Bool.true_and, Bool.and_eq_true,
        decide_eq_true_eq] at hok
      exact ⟨b, rfl, w, rfl, hok.1.1, hok.1.2, hok.2⟩

theorem entryOK_congr {us us' : Nat → Option UserW} {bs bs' : List BidR}
    {e : Nat × Int} (h1 : us' e.1 = us e.1)
    (h2 : findLiveBid e.1 bs' = findLiveBid e.1 bs) :
    entryOK us' bs' e = entryOK us bs e := by
  unfold entryOK
  rw [h1, h2]

/-! ### Claim C4 -/

/-- **C4.** Round settlement is idempotent: when the targeted round exists
and its status is not Active (already settled, finalizing, or not yet
started), `processRoundEnd` returns the zero counts without erroring and
with the state completely unchanged; in particular a second call on an
already-Completed round is a no-op. -/
theorem C4_settle_idempotent (now : Int) (n : Nat) (s : SState) (round : Round)
    (hfind : findRound n s.auction.rounds = some round)
    (hst : round.status ≠ RoundStatus.active) :
    processRoundEnd now n s = .ok (s, zeroSettle) := by
  unfold processRoundEnd
  rw [hfind]
  dsimp only
  rw [if_pos hst]

/-- A state whose only round is already Completed. -/
def exRoundDone : Round := ⟨1, 0, 120000, RoundStatus.completed, 3, [], 0⟩

def exSDone : SState :=
  ⟨exUsers, ⟨AuctionStatus.active, 5, 1, 3, [exRoundDone]⟩, [exBid], [], fun _ => [], 1⟩

theorem C4_settle_idempotent_witness :
    processRoundEnd 200000 1 exSDone = .ok (exSDone, zeroSettle) :=
  C4_settle_idempotent 200000 1 exSDone exRoundDone (by decide) (by decide)

/-! ### Characterisation of the winner loop -/

theorem processWinners_spec (now : Int) (rn k : Nat) :
    ∀ (ws : List (Nat × Int)) (j : Nat) (acc : WinAcc),
      (ws.map Prod.fst).Nodup →
      (∀ e ∈ ws, entryOK acc.users acc.bids e = true) →
      ∃ acc', processWinners now rn k ws j acc = .ok acc' ∧
        acc'.count = acc.count + ws.length ∧
        acc'.recs.length = acc.recs.length + ws.length ∧
        (∀ i, i < acc.recs.length → acc'.recs.get? i = acc.recs.get? i) ∧
        (∀ v, v ∉ ws.map Prod.fst → acc'.users v = acc.users v) ∧
        (∀ v, v ∉ ws.map Prod.fst →
          findLiveBid v acc'.bids = findLiveBid v acc.bids) ∧
        (∀ bb ∈ acc.bids, (∀ v ∈ ws.map Prod.fst, isLiveBid v bb = false) →
          bb ∈ acc'.bids) ∧
        (∀ it ∈ acc.items,
          (∀ m, j ≤ m → m < j + ws.length → it.serialNumber ≠ (rn - 1) * k + m + 1) →
          it ∈ acc'.items) ∧
        (∀ v, v ∉ ws.map Prod.fst → (∀ it ∈ acc.items, it.ownerId ≠ some v) →
          ∀ it ∈ acc'.items, it.ownerId ≠ some v) ∧
        (∀ i : Nat, ∀ hi : i < ws.length,
          (∀ w, acc.users (ws.get ⟨i, hi⟩).1 = some w →
            acc'.users (ws.get ⟨i, hi⟩).1 =
              some ⟨w.balance - (ws.get ⟨i, hi⟩).2,
                    w.frozenFunds - (ws.get ⟨i, hi⟩).2⟩) ∧
          ∃ b, findLiveBid (ws.get ⟨i, hi⟩).1 acc.bids = some b ∧
            { b with status := BidStatus.won, wonAt := some now } ∈ acc'.bids ∧
            acc'.recs.get? (acc.recs.length + i) =
              some ⟨(ws.get ⟨i, hi⟩).1, b.id, (ws.get ⟨i, hi⟩).2, j + i + 1, now⟩ ∧
            ∃ it ∈ acc'.items, it.serialNumber = (rn - 1) * k + (j + i) + 1 ∧
              it.ownerId = some (ws.get ⟨i, hi⟩).1 ∧ it.roundWon = some rn ∧
              it.wonAt = some now ∧ it.bidId = some b.id) := by
  intro ws
  induction ws with
  | nil =>
    intro j acc _ _
    refine ⟨acc, rfl, by simp, by simp, fun i _ => rfl, fun v _ => rfl,
      fun v _ => rfl, fun bb hbb _ => hbb, fun it hit _ => hit, fun v _ h => h,
      fun i hi => absurd hi (by simp)⟩
  | cons e rest ih =>
    intro j acc hnd hok
    rw [List.map_cons] at hnd
    have h1 := List.nodup_cons.mp hnd
    obtain ⟨b0, hfb, w0, hw0, hpos, hfro, hbal⟩ :=
      entryOK_elim (hok e (List.mem_cons_self e rest))
    have hmark : markWonFirst now e.1 acc.bids =
        some ({ b0 with status := BidStatus.won, wonAt := some now },
          updateFirst (isLiveBid e.1)
            (fun bb => { bb with status := BidStatus.won, wonAt := some now })
            acc.bids) := by
      unfold markWonFirst
      rw [hfb]
    have hded : deductFunds e.2 (acc.users e.1) =
        .ok ⟨w0.balance - e.2, w0.frozenFunds - e.2⟩ := by
      rw [hw0, deductFunds_pos_some e.2 hpos, if_neg (by omega), if_neg (by omega)]
    have hframe : ∀ v, ¬ v = e.1 →
        findLiveBid v (updateFirst (isLiveBid e.1)
          (fun bb => { bb with status := BidStatus.won, wonAt := some now })
          acc.bids) = findLiveBid v acc.bids := by
      intro v hv
      unfold findLiveBid
      refine find?_updateFirst_other _ _ _ (fun x hx => ⟨?_, ?_⟩) acc.bids
      · refine isLiveBid_ne_false ?_
        show ¬ x.userId = v
        rw [isLiveBid_userId hx]
        exact fun he => hv he.symm
      · refine isLiveBid_ne_false ?_
        rw [isLiveBid_userId hx]
        exact fun he => hv he.symm
    have hstep : processWinners now rn k (e :: rest) j acc =
        processWinners now rn k rest (j + 1)
          { users := setUser acc.users e.1 ⟨w0.balance - e.2, w0.frozenFunds - e.2⟩,
            bids := updateFirst (isLiveBid e.1)
              (fun bb => { bb with status := BidStatus.won, wonAt := some now })
              acc.bids,
            items := upsertItem ((rn - 1) * k + j + 1) e.1 rn now b0.id acc.items,
            recs := acc.recs ++ [⟨e.1, b0.id, e.2, j + 1, now⟩],
            count := acc.count + 1 } := by
      simp only [processWinners]
      rw [hmark]
      dsimp only
      rw [hded]
    have hok1 : ∀ e' ∈ rest,
        entryOK (setUser acc.users e.1 ⟨w0.balance - e.2, w0.frozenFunds - e.2⟩)
          (updateFirst (isLiveBid e.1)
            (fun bb => { bb with status := BidStatus.won, wonAt := some now })
            acc.bids) e' = true := by
      intro e' he'
      have hne : ¬ e'.1 = e.1 := by
        intro hEq
        exact h1.1 (hEq ▸ List.mem_map_of_mem Prod.fst he')
      rw [entryOK_congr (setUser_other _ _ _ _ hne) (hframe e'.1 hne)]
      exact hok e' (List.mem_cons_of_mem e he')
    obtain ⟨acc', hrun, hcount, hreclen, hrecpre, husers, hfinds, hmem, hitemsF,
      howner, hpt⟩ := ih (j + 1)
        { users := setUser acc.users e.1 ⟨w0.balance - e.2, w0.frozenFunds - e.2⟩,
          bids := updateFirst (isLiveBid e.1)
            (fun bb => { bb with status := BidStatus.won, wonAt := some now })
            acc.bids,
          items := upsertItem ((rn - 1) * k + j + 1) e.1 rn now b0.id acc.items,
          recs := acc.recs ++ [⟨e.1, b0.id, e.2, j + 1, now⟩],
          count := acc.count + 1 }
        h1.2 hok1
    dsimp only at hcount hreclen hrecpre husers hfinds hmem hitemsF howner hpt
    refine ⟨acc', by rw [hstep]; exact hrun, ?_, ?_, ?_, ?_, ?_, ?_, ?_, ?_, ?_⟩
    · simp only [List.length_cons]
      omega
    · simp only [List.length_cons, List.length_append, List.length_singleton,
        List.length_nil] at hreclen ⊢
      omega
    · intro i hi
      have h2 : acc'.recs.get? i = (acc.recs ++ [(⟨e.1, b0.id, e.2, j + 1, now⟩ : RoundWinner)]).get? i :=
        hrecpre i (by simp; omega)
      rw [h2, List.get?_append hi]
    · intro v hv
      rw [List.map_cons, List.mem_cons] at hv
      push_neg at hv
      rw [husers v hv.2]
      exact setUser_other _ _ _ _ hv.1
    · intro v hv
      rw [List.map_cons, List.mem_cons] at hv
      push_neg at hv
      rw [hfinds v hv.2]
      exact hframe v hv.1
    · intro bb hbb hlive
      have hbb1 : bb ∈ updateFirst (isLiveBid e.1)
          (fun b2 => { b2 with status := BidStatus.won, wonAt := some now }) acc.bids :=
        mem_updateFirst_of_not_pred _ _ acc.bids bb hbb
          (hlive e.1 (by simp))
      exact hmem bb hbb1 (fun v hv => hlive v (by simp [hv]))
    · intro it hit hser
      have hit1 : it ∈ upsertItem ((rn - 1) * k + j + 1) e.1 rn now b0.id acc.items :=
        upsertItem_frame _ _ _ _ _ acc.items it hit
          (hser j (le_refl j) (by simp) )
      exact hitemsF it hit1 (fun m hm1 hm2 => hser m (by omega) (by simp; omega))
    · intro v hv hcl
      rw [List.map_cons, List.mem_cons] at hv
      push_neg at hv
      have hcl1 := upsertItem_owner ((rn - 1) * k + j + 1) e.1 rn now b0.id v
        (fun hEq => hv.1 hEq.symm) acc.items hcl
      exact howner v hv.2 hcl1
    · intro i hi
      cases i with
      | zero =>
        refine ⟨?_, ?_⟩
        · intro w hw
          have hw' : acc.users e.1 = some w := hw
          rw [hw0] at hw'
          injection hw' with hw'
          subst hw'
          show acc'.users e.1 = some ⟨w0.balance - e.2, w0.frozenFunds - e.2⟩
          rw [husers e.1 h1.1]
          exact setUser_self _ _ _
        · show ∃ b, findLiveBid e.1 acc.bids = some b ∧
            { b with status := BidStatus.won, wonAt := some now } ∈ acc'.bids ∧
            acc'.recs.get? (acc.recs.length + 0) =
              some ⟨e.1, b.id, e.2, j + 0 + 1, now⟩ ∧
            ∃ it ∈ acc'.items, it.serialNumber = (rn - 1) * k + (j + 0) + 1 ∧
              it.ownerId = some e.1 ∧ it.roundWon = some rn ∧
              it.wonAt = some now ∧ it.bidId = some b.id
          refine ⟨b0, hfb, ?_, ?_, ?_⟩
          · have hfb0 : ({ b0 with status := BidStatus.won, wonAt := some now } : BidR) ∈
                updateFirst (isLiveBid e.1)
                  (fun bb => { bb with status := BidStatus.won, wonAt := some now })
                  acc.bids :=
              updateFirst_mem_find? _ _ acc.bids b0 hfb
            exact hmem _ hfb0 (fun v _ => by simp [isLiveBid])
          · have hlen : acc.recs.length <
                (acc.recs ++ [(⟨e.1, b0.id, e.2, j + 1, now⟩ : RoundWinner)]).length := by
              simp
            have h2 := hrecpre acc.recs.length hlen
            have h3 : (acc.recs ++ [(⟨e.1, b0.id, e.2, j + 1, now⟩ : RoundWinner)]).get?
                acc.recs.length = some ⟨e.1, b0.id, e.2, j + 1, now⟩ :=
              List.get?_concat_length _ _
            simpa using h2.trans h3
          · obtain ⟨it, hitmem, hs, ho, hr, hwn, hb⟩ :=
              upsertItem_self ((rn - 1) * k + j + 1) e.1 rn now b0.id acc.items
            refine ⟨it, ?_, by simpa using hs, ho, hr, hwn, hb⟩
            exact hitemsF it hitmem (fun m hm1 hm2 => by omega)
      | succ i' =>
        have hi' : i' < rest.length := by simpa using hi
        obtain ⟨hu, b, hb, hbmem, hrec, it, hitmem, hs, ho, hr, hwn, hbid⟩ :=
          hpt i' hi'
        have hne : ¬ (rest.get ⟨i', hi'⟩).1 = e.1 := by
          intro hEq
          exact h1.1 (hEq ▸ List.mem_map_of_mem Prod.fst (rest.get_mem i' hi'))
        show (∀ w, acc.users (rest.get ⟨i', hi'⟩).1 = some w →
            acc'.users (rest.get ⟨i', hi'⟩).1 =
              some ⟨w.balance - (rest.get ⟨i', hi'⟩).2,
                    w.frozenFunds - (rest.get ⟨i', hi'⟩).2⟩) ∧
          ∃ b, findLiveBid (rest.get ⟨i', hi'⟩).1 acc.bids = some b ∧
            { b with status := BidStatus.won, wonAt := some now } ∈ acc'.bids ∧
            acc'.recs.get? (acc.recs.length + (i' + 1)) =
              some ⟨(rest.get ⟨i', hi'⟩).1, b.id, (rest.get ⟨i', hi'⟩).2,
                    j + (i' + 1) + 1, now⟩ ∧
            ∃ it ∈ acc'.items,
              it.serialNumber = (rn - 1) * k + (j + (i' + 1)) + 1 ∧
              it.ownerId = some (rest.get ⟨i', hi'⟩).1 ∧ it.roundWon = some rn ∧
              it.wonAt = some now ∧ it.bidId = some b.id
        constructor
        · intro w hw
          refine hu w ?_
          rw [setUser_other _ _ _ _ hne]
          exact hw
        · refine ⟨b, ?_, hbmem, ?_, ?_⟩
          · rw [← hframe _ hne]
            exact hb
          · have hidx : acc.recs.length + (i' + 1) =
                (acc.recs ++ [(⟨e.1, b0.id, e.2, j + 1, now⟩ : RoundWinner)]).length + i' := by
              simp only [List.length_append, List.length_singleton, List.length_cons,
                List.length_nil]
              omega
            have hrank : j + 1 + i' + 1 = j + (i' + 1) + 1 := by omega
            rw [hidx, ← hrank]
            exact hrec
          · have hser : (rn - 1) * k + (j + 1 + i') + 1 =
                (rn - 1) * k + (j + (i' + 1)) + 1 := by omega
            exact ⟨it, hitmem, by rw [← hser]; exact hs, ho, hr, hwn, hbid⟩

/-! ### Characterisation of the loser loops -/

theorem findLiveBid_updateFirst_ne (u v : Nat) (hne : ¬ v = u) (f : BidR → BidR)
    (hf : ∀ x, (f x).userId = x.userId) (bs : List BidR) :
    findLiveBid v (updateFirst (isLiveBid u) f bs) = findLiveBid v bs := by
  unfold findLiveBid
  refine find?_updateFirst_other _ _ _ (fun x hx => ⟨?_, ?_⟩) bs
  · refine isLiveBid_ne_false ?_
    rw [hf x, isLiveBid_userId hx]
    exact fun he => hne he.symm
  · refine isLiveBid_ne_false ?_
    rw [isLiveBid_userId hx]
    exact fun he => hne he.symm

theorem processLosersCarry_spec (nr : Nat) :
    ∀ (ls : List (Nat × Int)) (bs : List BidR) (c : Nat),
      (ls.map Prod.fst).Nodup →
      (∀ e ∈ ls, (findLiveBid e.1 bs).isSome = true) →
      (processLosersCarry nr ls bs c).2 = c + ls.length ∧
      (∀ v, v ∉ ls.map Prod.fst →
        findLiveBid v (processLosersCarry nr ls bs c).1 = findLiveBid v bs) ∧
      (∀ bb ∈ bs, (∀ v ∈ ls.map Prod.fst, isLiveBid v bb = false) →
        bb ∈ (processLosersCarry nr ls bs c).1) ∧
      (∀ e ∈ ls, ∃ b, findLiveBid e.1 bs = some b ∧
        { b with status := BidStatus.carriedOver, roundNumber := nr,
                 isCarriedOver := true } ∈ (processLosersCarry nr ls bs c).1) := by
  intro ls
  induction ls with
  | nil =>
    intro bs c _ _
    exact ⟨by simp [processLosersCarry], fun v _ => rfl, fun bb hbb _ => hbb,
      fun e he => absurd he (by simp)⟩
  | cons e rest ih =>
    intro bs c hnd hlive
    rw [List.map_cons] at hnd
    have h1 := List.nodup_cons.mp hnd
    have hb0 : ∃ b0, findLiveBid e.1 bs = some b0 := by
      have := hlive e (List.mem_cons_self e rest)
      exact Option.isSome_iff_exists.mp this
    obtain ⟨b0, hfb⟩ := hb0
    have hstep : processLosersCarry nr (e :: rest) bs c =
        processLosersCarry nr rest
          (updateFirst (isLiveBid e.1)
            (fun b => { b with status := BidStatus.carriedOver, roundNumber := nr,
                               isCarriedOver := true }) bs) (c + 1) := rfl
    have hframe : ∀ v, ¬ v = e.1 →
        findLiveBid v (updateFirst (isLiveBid e.1)
          (fun b => { b with status := BidStatus.carriedOver, roundNumber := nr,
                             isCarriedOver := true }) bs) = findLiveBid v bs :=
      fun v hv => findLiveBid_updateFirst_ne e.1 v hv
        (fun b => { b with status := BidStatus.carriedOver, roundNumber := nr,
                           isCarriedOver := true }) (fun _ => rfl) bs
    have hlive1 : ∀ e' ∈ rest,
        (findLiveBid e'.1 (updateFirst (isLiveBid e.1)
          (fun b => { b with status := BidStatus.carriedOver, roundNumber := nr,
                             isCarriedOver := true }) bs)).isSome = true := by
      intro e' he'
      have hne : ¬ e'.1 = e.1 := by
        intro hEq
        exact h1.1 (hEq ▸ List.mem_map_of_mem Prod.fst he')
      rw [hframe e'.1 hne]
      exact hlive e' (List.mem_cons_of_mem e he')
    obtain ⟨hc, hfind, hmem, hpt⟩ := ih _ (c + 1) h1.2 hlive1
    rw [hstep]
    refine ⟨?_, ?_, ?_, ?_⟩
    · rw [hc]
      simp only [List.length_cons]
      omega
    · intro v hv
      rw [List.map_cons, List.mem_cons] at hv
      push_neg at hv
      rw [hfind v hv.2]
      exact hframe v hv.1
    · intro bb hbb hfl
      refine hmem bb ?_ (fun v hv => hfl v (by simp [hv]))
      exact mem_updateFirst_of_not_pred _ _ bs bb hbb (hfl e.1 (by simp))
    · intro e' he'
      rcases List.mem_cons.mp he' with h | h
      · subst h
        refine ⟨b0, hfb, ?_⟩
        refine hmem _ (updateFirst_mem_find? _ _ bs b0 hfb) (fun v hv => ?_)
        refine isLiveBid_ne_false ?_
        show ¬ b0.userId = v
        rw [isLiveBid_userId (List.find?_some hfb)]
        intro hEq
        exact h1.1 (hEq ▸ hv)
      · obtain ⟨b, hb, hbm⟩ := hpt e' h
        have hne : ¬ e'.1 = e.1 := by
          intro hEq
          exact h1.1 (hEq ▸ List.mem_map_of_mem Prod.fst h)
        exact ⟨b, by rw [← hframe e'.1 hne]; exact hb, hbm⟩

theorem processLosersRefund_spec (now : Int) :
    ∀ (ls : List (Nat × Int)) (us : Nat → Option UserW) (bs : List BidR) (c : Nat),
      (ls.map Prod.fst).Nodup →
      (∀ e ∈ ls, entryOK us bs e = true) →
      ∃ us' bs' c', processLosersRefund now ls us bs c = .ok (us', bs', c') ∧
        c' = c + ls.length ∧
        (∀ v, v ∉ ls.map Prod.fst → us' v = us v) ∧
        (∀ v, v ∉ ls.map Prod.fst → findLiveBid v bs' = findLiveBid v bs) ∧
        (∀ bb ∈ bs, (∀ v ∈ ls.map Prod.fst, isLiveBid v bb = false) → bb ∈ bs') ∧
        (∀ e ∈ ls,
          (∀ w, us e.1 = some w → us' e.1 = some ⟨w.balance, w.frozenFunds - e.2⟩) ∧
          ∃ b, findLiveBid e.1 bs = some b ∧
            { b with status := BidStatus.refunded, refundedAt := some now } ∈ bs') := by
  intro ls
  induction ls with
  | nil =>
    intro us bs c _ _
    exact ⟨us, bs, c, rfl, by simp, fun v _ => rfl, fun v _ => rfl,
      fun bb hbb _ => hbb, fun e he => absurd he (by simp)⟩
  | cons e rest ih =>
    intro us bs c hnd hok
    rw [List.map_cons] at hnd
    have h1 := List.nodup_cons.mp hnd
    obtain ⟨b0, hfb, w0, hw0, hpos, hfro, _⟩ :=
      entryOK_elim (hok e (List.mem_cons_self e rest))
    have href : refundFunds e.2 (us e.1) =
        .ok ⟨w0.balance, w0.frozenFunds - e.2⟩ := by
      rw [hw0, refundFunds_pos_some e.2 hpos, if_neg (by omega)]
    have hstep : processLosersRefund now (e :: rest) us bs c =
        processLosersRefund now rest
          (setUser us e.1 ⟨w0.balance, w0.frozenFunds - e.2⟩)
          (updateFirst (isLiveBid e.1)
            (fun b => { b with status := BidStatus.refunded, refundedAt := some now })
            bs) (c + 1) := by
      simp only [processLosersRefund]
      rw [href]
    have hframe : ∀ v, ¬ v = e.1 →
        findLiveBid v (updateFirst (isLiveBid e.1)
          (fun b => { b with status := BidStatus.refunded, refundedAt := some now })
          bs) = findLiveBid v bs :=
      fun v hv => findLiveBid_updateFirst_ne e.1 v hv
        (fun b => { b with status := BidStatus.refunded, refundedAt := some now })
        (fun _ => rfl) bs
    have hok1 : ∀ e' ∈ rest,
        entryOK (setUser us e.1 ⟨w0.balance, w0.frozenFunds - e.2⟩)
          (updateFirst (isLiveBid e.1)
            (fun b => { b with status := BidStatus.refunded, refundedAt := some now })
            bs) e' = true := by
      intro e' he'
      have hne : ¬ e'.1 = e.1 := by
        intro hEq
        exact h1.1 (hEq ▸ List.mem_map_of_mem Prod.fst he')
      rw [entryOK_congr (setUser_other _ _ _ _ hne) (hframe e'.1 hne)]
      exact hok e' (List.mem_cons_of_mem e he')
    obtain ⟨us', bs', c', hrun, hc, husers, hfind, hmem, hpt⟩ :=
      ih _ _ (c + 1) h1.2 hok1
    refine ⟨us', bs', c', by rw [hstep]; exact hrun, ?_, ?_, ?_, ?_, ?_⟩
    · rw [hc]
      simp only [List.length_cons]
      omega
    · intro v hv
      rw [List.map_cons, List.mem_cons] at hv
      push_neg at hv
      rw [husers v hv.2]
      exact setUser_other _ _ _ _ hv.1
    · intro v hv
      rw [List.map_cons, List.mem_cons] at hv
      push_neg at hv
      rw [hfind v hv.2]
      exact hframe v hv.1
    · intro bb hbb hfl
      refine hmem bb ?_ (fun v hv => hfl v (by simp [hv]))
      exact mem_updateFirst_of_not_pred _ _ bs bb hbb (hfl e.1 (by simp))
    · intro e' he'
      rcases List.mem_cons.mp he' with h | h
      · subst h
        constructor
        · intro w hw
          rw [hw0] at hw
          injection hw with hw
          subst hw
          rw [husers e'.1 h1.1]
          exact setUser_self _ _ _
        · refine ⟨b0, hfb, ?_⟩
          exact hmem _ (updateFirst_mem_find? _ _ bs b0 hfb)
            (fun v _ => by simp [isLiveBid])
      · have hne : ¬ e'.1 = e.1 := by
          intro hEq
          exact h1.1 (hEq ▸ List.mem_map_of_mem Prod.fst h)
        obtain ⟨hu, b, hb, hbm⟩ := hpt e' h
        constructor
        · intro w hw
          refine hu w ?_
          rw [setUser_other _ _ _ _ hne]
          exact hw
        · exact ⟨b, by rw [← hframe e'.1 hne]; exact hb, hbm⟩

/-! ### Round-list plumbing -/

theorem findRound_num {n : Nat} {rs : List Round} {r : Round}
    (h : findRound n rs = some r) : r.roundNumber = n := by
  have h2 := List.find?_some h
  simpa using h2

theorem updRound_map_num (n : Nat) (f : Round → Round)
    (hf : ∀ x, (f x).roundNumber = x.roundNumber) :
    ∀ rs : List Round,
      (updRound n f rs).map Round.roundNumber = rs.map Round.roundNumber := by
  intro rs
  induction rs with
  | nil => rfl
  | cons x xs ih =>
    show (updateFirst (fun r => decide (r.roundNumber = n)) f (x :: xs)).map
      Round.roundNumber = _
    unfold updateFirst
    by_cases hx : x.roundNumber = n
    · rw [if_pos (by simp [hx])]
      simp only [List.map_cons, hf x]
    · rw [if_neg (by simp [hx])]
      simp only [List.map_cons]
      exact congrArg (List.cons x.roundNumber) ih

theorem findRound_updRound_ne (m n : Nat) (hmn : ¬ m = n) (f : Round → Round)
    (hf : ∀ x, (f x).roundNumber = x.roundNumber) :
    ∀ rs : List Round, findRound n (updRound m f rs) = findRound n rs := by
  intro rs
  induction rs with
  | nil => rfl
  | cons x xs ih =>
    show findRound n (updateFirst (fun r => decide (r.roundNumber = m)) f (x :: xs)) = _
    unfold updateFirst
    by_cases hx : x.roundNumber = m
    · rw [if_pos (by simp [hx])]
      unfold findRound
      rw [List.find?_cons_of_neg _ (by simp [hf x, hx, hmn]),
        List.find?_cons_of_neg _ (by simp [hx, hmn])]
    · rw [if_neg (by simp [hx])]
      by_cases hxn : x.roundNumber = n
      · unfold findRound
        rw [List.find?_cons_of_pos _ (by simp [hxn]),
          List.find?_cons_of_pos _ (by simp [hxn])]
      · unfold findRound
        rw [List.find?_cons_of_neg _ (by simp [hxn]),
          List.find?_cons_of_neg _ (by simp [hxn])]
        exact ih

theorem findRound_updRound_eq_key (n : Nat) (r : Round) (hrn : r.roundNumber = n)
    (f : Round → Round) (hf : (f r).roundNumber = r.roundNumber)
    (rs : List Round) (hnd : (rs.map Round.roundNumber).Nodup) (hr : r ∈ rs) :
    findRound n (updRound n f rs) = some (f r) := by
  subst hrn
  exact findRound_updRound_eq r f hf rs hnd hr

/-! ### Master characterisation of `processRoundEnd` on an Active round -/

theorem processRoundEnd_spec (now : Int) (n : Nat) (s : SState) (round : Round)
    (hfr : findRound n s.auction.rounds = some round)
    (hst : round.status = RoundStatus.active)
    (hndR : (s.auction.rounds.map Round.roundNumber).Nodup)
    (hndB : ((s.boards n).map Prod.fst).Nodup)
    (hokB : ∀ e ∈ s.boards n, entryOK s.users s.bids e = true) :
    svcOk (processRoundEnd now n s) = true ∧
    (exSetRes (processRoundEnd now n s)).winnersCount =
      ((s.boards n).take round.itemsInRound).length ∧
    (s.auction.totalRounds ≤ n →
      (exSetRes (processRoundEnd now n s)).losersRefunded =
        ((s.boards n).drop round.itemsInRound).length ∧
      (exSetRes (processRoundEnd now n s)).losersCarriedOver = 0 ∧
      (exSetState s (processRoundEnd now n s)).auction.status =
        AuctionStatus.completed) ∧
    (¬ s.auction.totalRounds ≤ n →
      (exSetRes (processRoundEnd now n s)).losersCarriedOver =
        ((s.boards n).drop round.itemsInRound).length ∧
      (exSetRes (processRoundEnd now n s)).losersRefunded = 0 ∧
      (exSetState s (processRoundEnd now n s)).auction.currentRound = n + 1) ∧
    (∃ round', findRound n (exSetState s (processRoundEnd now n s)).auction.rounds =
        some round' ∧
      round'.status = RoundStatus.completed ∧
      round'.winners.length = ((s.boards n).take round.itemsInRound).length ∧
      (∀ i : Nat, ∀ hi : i < ((s.boards n).take round.itemsInRound).length,
        (∀ w, s.users (((s.boards n).take round.itemsInRound).get ⟨i, hi⟩).1 = some w →
          (exSetState s (processRoundEnd now n s)).users
              (((s.boards n).take round.itemsInRound).get ⟨i, hi⟩).1 =
            some ⟨w.balance - (((s.boards n).take round.itemsInRound).get ⟨i, hi⟩).2,
                  w.frozenFunds -
                    (((s.boards n).take round.itemsInRound).get ⟨i, hi⟩).2⟩) ∧
        ∃ b, findLiveBid (((s.boards n).take round.itemsInRound).get ⟨i, hi⟩).1
            s.bids = some b ∧
          { b with status := BidStatus.won, wonAt := some now } ∈
            (exSetState s (processRoundEnd now n s)).bids ∧
          round'.winners.get? i =
            some ⟨(((s.boards n).take round.itemsInRound).get ⟨i, hi⟩).1, b.id,
                  (((s.boards n).take round.itemsInRound).get ⟨i, hi⟩).2, i + 1, now⟩ ∧
          ∃ it ∈ (exSetState s (processRoundEnd now n s)).items,
            it.serialNumber = (n - 1) * round.itemsInRound + i + 1 ∧
            it.ownerId = some (((s.boards n).take round.itemsInRound).get ⟨i, hi⟩).1 ∧
            it.roundWon = some n ∧ it.wonAt = some now ∧ it.bidId = some b.id)) ∧
    (¬ s.auction.totalRounds ≤ n →
      ∀ e ∈ (s.boards n).drop round.itemsInRound,
        (exSetState s (processRoundEnd now n s)).users e.1 = s.users e.1 ∧
        ∃ b, findLiveBid e.1 s.bids = some b ∧
          { b with status := BidStatus.carriedOver, roundNumber := n + 1,
                   isCarriedOver := true } ∈
            (exSetState s (processRoundEnd now n s)).bids) ∧
    (s.auction.totalRounds ≤ n →
      ∀ e ∈ (s.boards n).drop round.itemsInRound,
        (∀ w, s.users e.1 = some w →
          (exSetState s (processRoundEnd now n s)).users e.1 =
            some ⟨w.balance, w.frozenFunds - e.2⟩) ∧
        (∃ b, findLiveBid e.1 s.bids = some b ∧
          { b with status := BidStatus.refunded, refundedAt := some now } ∈
            (exSetState s (processRoundEnd now n s)).bids) ∧
        ((∀ it ∈ s.items, it.ownerId ≠ some e.1) →
          ∀ it ∈ (exSetState s (processRoundEnd now n s)).items,
            it.ownerId ≠ some e.1)) := by
  have hrn : round.roundNumber = n := findRound_num hfr
  have hrmem : round ∈ s.auction.rounds := List.mem_of_find?_eq_some hfr
  have hndW : (((s.boards n).take round.itemsInRound).map Prod.fst).Nodup := by
    rw [List.map_take]
    exact List.Sublist.nodup (List.take_sublist _ _) hndB
  have hokW : ∀ e ∈ (s.boards n).take round.itemsInRound,
      entryOK s.users s.bids e = true :=
    fun e he => hokB e (List.take_subset _ _ he)
  obtain ⟨acc', hrunW, hcount, hreclen, hrecpre, husersW, hfindsW, hmemW,
    hitemsW, hownerW, hptW⟩ :=
    processWinners_spec now n round.itemsInRound
      ((s.boards n).take round.itemsInRound) 0 ⟨s.users, s.bids, s.items, [], 0⟩
      hndW hokW
  dsimp only at hcount hreclen hrecpre husersW hfindsW hmemW hitemsW hownerW hptW
  simp only [List.length_nil, Nat.zero_add] at hcount hreclen hptW
  have hsplit : (s.boards n).map Prod.fst =
      ((s.boards n).take round.itemsInRound).map Prod.fst ++
      ((s.boards n).drop round.itemsInRound).map Prod.fst := by
    rw [← List.map_append, List.take_append_drop]
  have hndparts := List.nodup_append.mp (hsplit ▸ hndB)
  have hndL : (((s.boards n).drop round.itemsInRound).map Prod.fst).Nodup :=
    hndparts.2.1
  have hdisj : ∀ x ∈ ((s.boards n).drop round.itemsInRound).map Prod.fst,
      x ∉ ((s.boards n).take round.itemsInRound).map Prod.fst := by
    intro x hx hx2
    exact hndparts.2.2 hx2 hx
  have hokL : ∀ e ∈ (s.boards n).drop round.itemsInRound,
      entryOK acc'.users acc'.bids e = true := by
    intro e he
    have hnotin : e.1 ∉ ((s.boards n).take round.itemsInRound).map Prod.fst :=
      hdisj e.1 (List.mem_map_of_mem _ he)
    rw [entryOK_congr (husersW e.1 hnotin) (hfindsW e.1 hnotin)]
    exact hokB e (List.drop_subset _ _ he)
  have hbl : boardLosers (((s.boards n).take round.itemsInRound).map Prod.fst)
      (s.boards n) = (s.boards n).drop round.itemsInRound :=
    boardLosers_take_drop round.itemsInRound (s.boards n) hndB
  -- rounds chain shared by both branches
  have hrw1 := findRound_updRound_eq_key n round hrn
    (fun r => { r with status := RoundStatus.finalizing }) rfl
    s.auction.rounds hndR hrmem
  have hnd1 : ((updRound n (fun r => { r with status := RoundStatus.finalizing })
      s.auction.rounds).map Round.roundNumber).Nodup := by
    rw [updRound_map_num n (fun r => { r with status := RoundStatus.finalizing })
      (fun _ => rfl) s.auction.rounds]
    exact hndR
  have hrw2 := findRound_updRound_eq_key n
    { round with status := RoundStatus.finalizing } hrn
    (fun r => { r with winners := acc'.recs }) rfl
    (updRound n (fun r => { r with status := RoundStatus.finalizing })
      s.auction.rounds) hnd1 (List.mem_of_find?_eq_some hrw1)
  have hnd2 : ((updRound n (fun r => { r with winners := acc'.recs })
      (updRound n (fun r => { r with status := RoundStatus.finalizing })
        s.auction.rounds)).map Round.roundNumber).Nodup := by
    rw [updRound_map_num n (fun r => { r with winners := acc'.recs })
      (fun _ => rfl)]
    exact hnd1
  by_cases hfin : s.auction.totalRounds ≤ n
  · -- final round: refund branch
    obtain ⟨us', bs', c', hrunL, hc, husersL, hfindsL, hmemL, hptL⟩ :=
      processLosersRefund_spec now ((s.boards n).drop round.itemsInRound)
        acc'.users acc'.bids 0 hndL hokL
    have hrun : processRoundEnd now n s = .ok
        ({ users := us',
           auction := { s.auction with
                        status := AuctionStatus.completed,
                        rounds := setRoundStatus n RoundStatus.completed
                          (setRoundWinners n acc'.recs
                            (setRoundStatus n RoundStatus.finalizing
                              s.auction.rounds)) },
           bids := bs', items := acc'.items,
           boards := setBoard s.boards n [],
           nextBidId := s.nextBidId },
         ⟨acc'.count, 0, c'⟩) := by
      unfold processRoundEnd
      rw [hfr]
      dsimp only
      rw [if_neg (by simp [hst])]
      rw [hrunW]
      dsimp only
      rw [hbl, if_pos hfin, hrunL]
    have hrw3 := findRound_updRound_eq_key n
      { round with status := RoundStatus.finalizing, winners := acc'.recs } hrn
      (fun r => { r with status := RoundStatus.completed }) rfl
      (updRound n (fun r => { r with winners := acc'.recs })
        (updRound n (fun r => { r with status := RoundStatus.finalizing })
          s.auction.rounds)) hnd2 (List.mem_of_find?_eq_some hrw2)
    rw [hrun]
    simp only [exSetState, exSetRes]
    refine ⟨by trivial, hcount, fun _ => ⟨hc.trans (by simp), by trivial, by trivial⟩,
      fun h => absurd hfin h, ?_, fun h => absurd hfin h, ?_⟩
    · -- the settled round
      refine ⟨{ round with status := RoundStatus.completed, winners := acc'.recs },
        hrw3, rfl, hreclen, ?_⟩
      intro i hi
      obtain ⟨hu, b, hb, hbmem, hrec, it, hitmem, hs2, ho, hr2, hwn, hbid⟩ :=
        hptW i hi
      have hwin : (((s.boards n).take round.itemsInRound).get ⟨i, hi⟩).1 ∈
          ((s.boards n).take round.itemsInRound).map Prod.fst :=
        List.mem_map_of_mem _ (List.get_mem _ i hi)
      have hnotls : (((s.boards n).take round.itemsInRound).get ⟨i, hi⟩).1 ∉
          ((s.boards n).drop round.itemsInRound).map Prod.fst := by
        intro hmem2
        exact hdisj _ hmem2 hwin
      refine ⟨?_, b, hb, ?_, ?_, it, hitmem, hs2, ho, hr2, hwn, hbid⟩
      · intro w hw
        rw [husersL _ hnotls]
        exact hu w hw
      · refine hmemL _ hbmem (fun v hv => ?_)
        simp [isLiveBid]
      · exact hrec
    · -- refunded losers
      intro _ e he
      have hnotin : e.1 ∉ ((s.boards n).take round.itemsInRound).map Prod.fst :=
        hdisj e.1 (List.mem_map_of_mem _ he)
      obtain ⟨huL, b, hb, hbm⟩ := hptL e he
      refine ⟨?_, ⟨b, ?_, hbm⟩, ?_⟩
      · intro w hw
        refine huL w ?_
        rw [husersW e.1 hnotin]
        exact hw
      · rw [← hfindsW e.1 hnotin]
        exact hb
      · intro hcl it hit
        exact hownerW e.1 hnotin hcl it hit
  · -- non-final round: carry branch
    have hliveL : ∀ e ∈ (s.boards n).drop round.itemsInRound,
        (findLiveBid e.1 acc'.bids).isSome = true := by
      intro e he
      obtain ⟨b, hb, _⟩ := entryOK_elim (hokL e he)
      rw [hb]
      rfl
    obtain ⟨hc, hfindsC, hmemC, hptC⟩ :=
      processLosersCarry_spec (n + 1) ((s.boards n).drop round.itemsInRound)
        acc'.bids 0 hndL hliveL
    have hrun : processRoundEnd now n s = .ok
        ({ users := acc'.users,
           auction := { s.auction with
                        currentRound := n + 1,
                        rounds := setRoundStatus n RoundStatus.completed
                          (setRoundStatus (n + 1) RoundStatus.active
                            (setRoundWinners n acc'.recs
                              (setRoundStatus n RoundStatus.finalizing
                                s.auction.rounds))) },
           bids := (processLosersCarry (n + 1)
             ((s.boards n).drop round.itemsInRound) acc'.bids 0).1,
           items := acc'.items,
           boards := setBoard (setBoard s.boards (n + 1)
             (zaddAll ((s.boards n).drop round.itemsInRound) (s.boards (n + 1)))) n [],
           nextBidId := s.nextBidId },
         ⟨acc'.count, (processLosersCarry (n + 1)
           ((s.boards n).drop round.itemsInRound) acc'.bids 0).2, 0⟩) := by
      unfold processRoundEnd
      rw [hfr]
      dsimp only
      rw [if_neg (by simp [hst])]
      rw [hrunW]
      dsimp only
      rw [hbl, if_neg hfin]
    have hrw2b := (findRound_updRound_ne (n + 1) n (by omega)
      (fun r => { r with status := RoundStatus.active }) (fun _ => rfl)
      (updRound n (fun r => { r with winners := acc'.recs })
        (updRound n (fun r => { r with status := RoundStatus.finalizing })
          s.auction.rounds))).trans hrw2
    have hnd2b : ((updRound (n + 1) (fun r => { r with status := RoundStatus.active })
        (updRound n (fun r => { r with winners := acc'.recs })
          (updRound n (fun r => { r with status := RoundStatus.finalizing })
            s.auction.rounds))).map Round.roundNumber).Nodup := by
      rw [updRound_map_num (n + 1) (fun r => { r with status := RoundStatus.active })
        (fun _ => rfl)]
      exact hnd2
    have hrw3 := findRound_updRound_eq_key n
      { round with status := RoundStatus.finalizing, winners := acc'.recs } hrn
      (fun r => { r with status := RoundStatus.completed }) rfl
      (updRound (n + 1) (fun r => { r with status := RoundStatus.active })
        (updRound n (fun r => { r with winners := acc'.recs })
          (updRound n (fun r => { r with status := RoundStatus.finalizing })
            s.auction.rounds))) hnd2b (List.mem_of_find?_eq_some hrw2b)
    rw [hrun]
    simp only [exSetState, exSetRes]
    refine ⟨by trivial, hcount, fun h => absurd h hfin,
      fun _ => ⟨hc.trans (by simp), by trivial, by trivial⟩, ?_, ?_, fun h => absurd h hfin⟩
    · refine ⟨{ round with status := RoundStatus.completed, winners := acc'.recs },
        hrw3, rfl, hreclen, ?_⟩
      intro i hi
      obtain ⟨hu, b, hb, hbmem, hrec, it, hitmem, hs2, ho, hr2, hwn, hbid⟩ :=
        hptW i hi
      refine ⟨hu, b, hb, ?_, hrec, it, hitmem, hs2, ho, hr2, hwn, hbid⟩
      refine hmemC _ hbmem (fun v hv => ?_)
      simp [isLiveBid]
    · intro _ e he
      have hnotin : e.1 ∉ ((s.boards n).take round.itemsInRound).map Prod.fst :=
        hdisj e.1 (List.mem_map_of_mem _ he)
      obtain ⟨b, hb, hbm⟩ := hptC e he
      refine ⟨husersW e.1 hnotin, b, ?_, hbm⟩
      rw [← hfindsW e.1 hnotin]
      exact hb

/-! ### Claims C5 - C7 -/

/-- **C5.** When an Active round with `itemsInRound = k` settles, the top `k`
rank-store entries (the board is sorted descending by amount) are the
winners, processed in rank order: each winner's live bid is transitioned to
Won (`wonAt` recorded), their escrow is settled in the Ledger — balance and
frozenFunds each reduced by the winning amount —, the Item with serial
`(roundNumber-1)*k + rank` is assigned to them recording `roundWon`,
`wonAt` and the winning bid's id, and the round's winners list consists of
the RoundWinner records `{userId, bidId, amount, rank, wonAt}` with ranks
1..k. -/
theorem C5_settlement_winners (now : Int) (n : Nat) (s : SState) (round : Round)
    (hfr : findRound n s.auction.rounds = some round)
    (hst : round.status = RoundStatus.active)
    (hndR : (s.auction.rounds.map Round.roundNumber).Nodup)
    (hndB : ((s.boards n).map Prod.fst).Nodup)
    (hsort : ((s.boards n).map Prod.snd).Sorted (· ≥ ·))
    (hokB : ∀ e ∈ s.boards n, entryOK s.users s.bids e = true) :
    svcOk (processRoundEnd now n s) = true ∧
    (exSetRes (processRoundEnd now n s)).winnersCount =
      ((s.boards n).take round.itemsInRound).length ∧
    ∃ round', findRound n (exSetState s (processRoundEnd now n s)).auction.rounds =
        some round' ∧
      round'.status = RoundStatus.completed ∧
      round'.winners.length = ((s.boards n).take round.itemsInRound).length ∧
      (∀ i : Nat, ∀ hi : i < ((s.boards n).take round.itemsInRound).length,
        (∀ w, s.users (((s.boards n).take round.itemsInRound).get ⟨i, hi⟩).1 = some w →
          (exSetState s (processRoundEnd now n s)).users
              (((s.boards n).take round.itemsInRound).get ⟨i, hi⟩).1 =
            some ⟨w.balance - (((s.boards n).take round.itemsInRound).get ⟨i, hi⟩).2,
                  w.frozenFunds -
                    (((s.boards n).take round.itemsInRound).get ⟨i, hi⟩).2⟩) ∧
        ∃ b, findLiveBid (((s.boards n).take round.itemsInRound).get ⟨i, hi⟩).1
            s.bids = some b ∧
          { b with status := BidStatus.won, wonAt := some now } ∈
            (exSetState s (processRoundEnd now n s)).bids ∧
          round'.winners.get? i =
            some ⟨(((s.boards n).take round.itemsInRound).get ⟨i, hi⟩).1, b.id,
                  (((s.boards n).take round.itemsInRound).get ⟨i, hi⟩).2, i + 1, now⟩ ∧
          ∃ it ∈ (exSetState s (processRoundEnd now n s)).items,
            it.serialNumber = (n - 1) * round.itemsInRound + i + 1 ∧
            it.ownerId = some (((s.boards n).take round.itemsInRound).get ⟨i, hi⟩).1 ∧
            it.roundWon = some n ∧ it.wonAt = some now ∧ it.bidId = some b.id) := by
  obtain ⟨h1, h2, _, _, h5, _, _⟩ :=
    processRoundEnd_spec now n s round hfr hst hndR hndB hokB
  exact ⟨h1, h2, h5⟩

/-- **C6.** In a non-final round settlement, every losing board entry's live
bid is changed only in its status (to CarriedOver), its roundNumber (to the
next round number) and its isCarriedOver flag — the bid's amount and the
bidder's balance and frozenFunds are completely untouched. -/
theorem C6_carry_over_frame (now : Int) (n : Nat) (s : SState) (round : Round)
    (hfr : findRound n s.auction.rounds = some round)
    (hst : round.status = RoundStatus.active)
    (hndR : (s.auction.rounds.map Round.roundNumber).Nodup)
    (hndB : ((s.boards n).map Prod.fst).Nodup)
    (hokB : ∀ e ∈ s.boards n, entryOK s.users s.bids e = true)
    (hnl : ¬ s.auction.totalRounds ≤ n) :
    svcOk (processRoundEnd now n s) = true ∧
    (exSetRes (processRoundEnd now n s)).losersCarriedOver =
      ((s.boards n).drop round.itemsInRound).length ∧
    ∀ e ∈ (s.boards n).drop round.itemsInRound,
      (exSetState s (processRoundEnd now n s)).users e.1 = s.users e.1 ∧
      ∃ b, findLiveBid e.1 s.bids = some b ∧
        { b with status := BidStatus.carriedOver, roundNumber := n + 1,
                 isCarriedOver := true } ∈
          (exSetState s (processRoundEnd now n s)).bids := by
  obtain ⟨h1, _, _, h4, _, h6, _⟩ :=
    processRoundEnd_spec now n s round hfr hst hndR hndB hokB
  exact ⟨h1, (h4 hnl).1, h6 hnl⟩

/-- **C7.** When the auction's final round settles, every losing board
entry's live bid is transitioned to Refunded and the full escrowed amount
is released: frozenFunds decreases by the amount while balance is
unchanged; a bidder who owned no Item before still owns none afterwards;
and the auction's status becomes Completed. -/
theorem C7_final_round_refund (now : Int) (n : Nat) (s : SState) (round : Round)
    (hfr : findRound n s.auction.rounds = some round)
    (hst : round.status = RoundStatus.active)
    (hndR : (s.auction.rounds.map Round.roundNumber).Nodup)
    (hndB : ((s.boards n).map Prod.fst).Nodup)
    (hokB : ∀ e ∈ s.boards n, entryOK s.users s.bids e = true)
    (hfin : s.auction.totalRounds ≤ n) :
    svcOk (processRoundEnd now n s) = true ∧
    (exSetRes (processRoundEnd now n s)).losersRefunded =
      ((s.boards n).drop round.itemsInRound).length ∧
    (exSetState s (processRoundEnd now n s)).auction.status =
      AuctionStatus.completed ∧
    ∀ e ∈ (s.boards n).drop round.itemsInRound,
      (∀ w, s.users e.1 = some w →
        (exSetState s (processRoundEnd now n s)).users e.1 =
          some ⟨w.balance, w.frozenFunds - e.2⟩) ∧
      (∃ b, findLiveBid e.1 s.bids = some b ∧
        { b with status := BidStatus.refunded, refundedAt := some now } ∈
          (exSetState s (processRoundEnd now n s)).bids) ∧
      ((∀ it ∈ s.items, it.ownerId ≠ some e.1) →
        ∀ it ∈ (exSetState s (processRoundEnd now n s)).items,
          it.ownerId ≠ some e.1) := by
  obtain ⟨h1, _, h3, _, _, _, h7⟩ :=
    processRoundEnd_spec now n s round hfr hst hndR hndB hokB
  exact ⟨h1, (h3 hfin).1, (h3 hfin).2.2, h7 hfin⟩

/-! ### Settlement witness scenario: itemsInRound = 3, five bidders at
[900, 800, 700, 600, 500] (the spec's worked example). -/

def exBoard : List (Nat × Int) := [(1, 900), (2, 800), (3, 700), (4, 600), (5, 500)]

def exUsersW : Nat → Option UserW := fun v =>
  if v = 1 then some ⟨1000, 900⟩
  else if v = 2 then some ⟨1000, 800⟩
  else if v = 3 then some ⟨1000, 700⟩
  else if v = 4 then some ⟨1000, 600⟩
  else if v = 5 then some ⟨1000, 500⟩
  else none

def exBidsW : List BidR :=
  [⟨1, 1, 900, BidStatus.active, 1, 1, false, none, none⟩,
   ⟨2, 2, 800, BidStatus.active, 1, 1, false, none, none⟩,
   ⟨3, 3, 700, BidStatus.active, 1, 1, false, none, none⟩,
   ⟨4, 4, 600, BidStatus.active, 1, 1, false, none, none⟩,
   ⟨5, 5, 500, BidStatus.active, 1, 1, false, none, none⟩]

def exRound1 : Round := ⟨1, 0, 120000, RoundStatus.active, 3, [], 0⟩

def exRound2 : Round := ⟨2, 120000, 240000, RoundStatus.pending, 3, [], 0⟩

/-- Mid-auction state (5 total rounds, round 1 active). -/
def exSW : SState :=
  ⟨exUsersW, ⟨AuctionStatus.active, 5, 1, 3, [exRound1, exRound2]⟩, exBidsW, [],
   fun m => if m = 1 then exBoard else [], 6⟩

/-- Final-round state (1 total round, round 1 active). -/
def exSWF : SState :=
  ⟨exUsersW, ⟨AuctionStatus.active, 1, 1, 3, [exRound1]⟩, exBidsW, [],
   fun m => if m = 1 then exBoard else [], 6⟩

theorem C5_settlement_winners_witness :
    svcOk (processRoundEnd 120000 1 exSW) = true ∧
    (exSetRes (processRoundEnd 120000 1 exSW)).winnersCount =
      ((exSW.boards 1).take exRound1.itemsInRound).length ∧
    ∃ round', findRound 1 (exSetState exSW (processRoundEnd 120000 1 exSW)).auction.rounds =
        some round' ∧
      round'.status = RoundStatus.completed ∧
      round'.winners.length = ((exSW.boards 1).take exRound1.itemsInRound).length ∧
      (∀ i : Nat, ∀ hi : i < ((exSW.boards 1).take exRound1.itemsInRound).length,
        (∀ w, exSW.users (((exSW.boards 1).take exRound1.itemsInRound).get ⟨i, hi⟩).1 =
            some w →
          (exSetState exSW (processRoundEnd 120000 1 exSW)).users
              (((exSW.boards 1).take exRound1.itemsInRound).get ⟨i, hi⟩).1 =
            some ⟨w.balance - (((exSW.boards 1).take exRound1.itemsInRound).get ⟨i, hi⟩).2,
                  w.frozenFunds -
                    (((exSW.boards 1).take exRound1.itemsInRound).get ⟨i, hi⟩).2⟩) ∧
        ∃ b, findLiveBid (((exSW.boards 1).take exRound1.itemsInRound).get ⟨i, hi⟩).1
            exSW.bids = some b ∧
          { b with status := BidStatus.won, wonAt := some 120000 } ∈
            (exSetState exSW (processRoundEnd 120000 1 exSW)).bids ∧
          round'.winners.get? i =
            some ⟨(((exSW.boards 1).take exRound1.itemsInRound).get ⟨i, hi⟩).1, b.id,
                  (((exSW.boards 1).take exRound1.itemsInRound).get ⟨i, hi⟩).2,
                  i + 1, 120000⟩ ∧
          ∃ it ∈ (exSetState exSW (processRoundEnd 120000 1 exSW)).items,
            it.serialNumber = (1 - 1) * exRound1.itemsInRound + i + 1 ∧
            it.ownerId =
              some (((exSW.boards 1).take exRound1.itemsInRound).get ⟨i, hi⟩).1 ∧
            it.roundWon = some 1 ∧ it.wonAt = some 120000 ∧ it.bidId = some b.id) :=
  C5_settlement_winners 120000 1 exSW exRound1 (by decide) (by decide) (by decide)
    (by decide) (by decide) (by decide)

theorem C6_carry_over_frame_witness :
    svcOk (processRoundEnd 120000 1 exSW) = true ∧
    (exSetRes (processRoundEnd 120000 1 exSW)).losersCarriedOver =
      ((exSW.boards 1).drop exRound1.itemsInRound).length ∧
    ∀ e ∈ (exSW.boards 1).drop exRound1.itemsInRound,
      (exSetState exSW (processRoundEnd 120000 1 exSW)).users e.1 = exSW.users e.1 ∧
      ∃ b, findLiveBid e.1 exSW.bids = some b ∧
        { b with status := BidStatus.carriedOver, roundNumber := 1 + 1,
                 isCarriedOver := true } ∈
          (exSetState exSW (processRoundEnd 120000 1 exSW)).bids :=
  C6_carry_over_frame 120000 1 exSW exRound1 (by decide) (by decide) (by decide)
    (by decide) (by decide) (by decide)

theorem C7_final_round_refund_witness :
    svcOk (processRoundEnd 120000 1 exSWF) = true ∧
    (exSetRes (processRoundEnd 120000 1 exSWF)).losersRefunded =
      ((exSWF.boards 1).drop exRound1.itemsInRound).length ∧
    (exSetState exSWF (processRoundEnd 120000 1 exSWF)).auction.status =
      AuctionStatus.completed ∧
    ∀ e ∈ (exSWF.boards 1).drop exRound1.itemsInRound,
      (∀ w, exSWF.users e.1 = some w →
        (exSetState exSWF (processRoundEnd 120000 1 exSWF)).users e.1 =
          some ⟨w.balance, w.frozenFunds - e.2⟩) ∧
      (∃ b, findLiveBid e.1 exSWF.bids = some b ∧
        { b with status := BidStatus.refunded, refundedAt := some 120000 } ∈
          (exSetState exSWF (processRoundEnd 120000 1 exSWF)).bids) ∧
      ((∀ it ∈ exSWF.items, it.ownerId ≠ some e.1) →
        ∀ it ∈ (exSetState exSWF (processRoundEnd 120000 1 exSWF)).items,
          it.ownerId ≠ some e.1) :=
  C7_final_round_refund 120000 1 exSWF exRound1 (by decide) (by decide) (by decide)
    (by decide) (by decide) (by decide)

/-! ## Auction creation (AuctionService.createAuction)

`createAuction` touches the set of auctions (it retires every Active one),
their bids, items and leaderboards; it never calls the WalletService.  The
state here therefore carries a list of auctions with ids, and bids/items
tagged by auction id. -/

structure GAuction where
  id : Nat
  status : AuctionStatus
  totalItems : Nat
  itemsPerRound : Nat
  totalRounds : Nat
  currentRound : Nat
  rounds : List Round
deriving DecidableEq

structure GBid where
  auctionId : Nat
  userId : Nat
  amount : Int
  status : BidStatus
deriving DecidableEq

structure GItem where
  auctionId : Nat
  serialNumber : Nat
  ownerId : Option Nat
  roundWon : Option Nat
  wonAt : Option Int
  bidId : Option Nat
deriving DecidableEq

structure GState where
  users : Nat → Option UserW
  auctions : List GAuction
  bids : List GBid
  items : List GItem
  boards : Nat × Nat → List (Nat × Int)
  nextAuctionId : Nat

/-- Redis cleanup loop: `DEL auction:<id>:round:<r>` for `r = 1..totalRounds`
of every retired auction. -/
def clearedBoards (acts : List GAuction) (bs : Nat × Nat → List (Nat × Int)) :
    Nat × Nat → List (Nat × Int) :=
  fun key =>
    if acts.any (fun a => decide (key.1 = a.id) && decide (1 ≤ key.2) &&
        decide (key.2 ≤ a.totalRounds))
    then [] else bs key

/-- The generated round schedule: round `i+1` spans
`[now + i*dur, now + (i+1)*dur)`; round 1 starts Active, the rest Pending. -/
def mkRounds (now : Int) (totalRounds roundDurationMinutes itemsPerRound : Nat) :
    List Round :=
  (List.range totalRounds).map (fun i =>
    { roundNumber := i + 1,
      startTime := now + (i : Int) * (roundDurationMinutes : Int) * 60 * 1000,
      endTime := now + (i : Int) * (roundDurationMinutes : Int) * 60 * 1000 +
        (roundDurationMinutes : Int) * 60 * 1000,
      status := if i = 0 then RoundStatus.active else RoundStatus.pending,
      itemsInRound := itemsPerRound,
      winners := [],
      extendedCount := 0 })

/-- The freshly minted items with serials `1..totalItems` and no owner. -/
def mkItems (aid : Nat) (totalItems : Nat) : List GItem :=
  (List.range totalItems).map (fun i => ⟨aid, i + 1, none, none, none, none⟩)

/-- `AuctionService.createAuction`: delete every Active auction (its Redis
leaderboards, its bids and its items), then create the new auction with its
round schedule and its items.  No Ledger operation is performed. -/
def createAuction (now : Int) (itemsPerRound totalRounds roundDurationMinutes : Nat)
    (s : GState) : GState × GAuction :=
  let existing := s.auctions.filter (fun a => decide (a.status = AuctionStatus.active))
  let activeIds := existing.map GAuction.id
  let au : GAuction :=
    { id := s.nextAuctionId, status := AuctionStatus.active,
      totalItems := itemsPerRound * totalRounds, itemsPerRound := itemsPerRound,
      totalRounds := totalRounds, currentRound := 1,
      rounds := mkRounds now totalRounds roundDurationMinutes itemsPerRound }
  ({ users := s.users,
     auctions := s.auctions.filter
       (fun a => decide (¬ a.status = AuctionStatus.active)) ++ [au],
     bids := s.bids.filter (fun b => decide (b.auctionId ∉ activeIds)),
     items := s.items.filter (fun it => decide (it.auctionId ∉ activeIds)) ++
       mkItems au.id (itemsPerRound * totalRounds),
     boards := clearedBoards existing s.boards,
     nextAuctionId := s.nextAuctionId + 1 }, au)

/-- **C10.** `createAuction` deletes every existing Active auction together
with all of its Bid and Item records and its rank-store entries, but
performs no Ledger operation while doing so: the users map (balance and
frozenFunds of every user) is unchanged, even though the bids backing any
escrow are gone.  Surviving records are exactly the non-Active auctions,
the bids/items of non-Active auctions, plus the new auction and its fresh
items. -/
theorem C10_createAuction_frame (now : Int) (ipr tr rdm : Nat) (s : GState) :
    (createAuction now ipr tr rdm s).1.users = s.users ∧
    (∀ b ∈ (createAuction now ipr tr rdm s).1.bids,
      b ∈ s.bids ∧ ∀ a ∈ s.auctions, a.status = AuctionStatus.active →
        b.auctionId ≠ a.id) ∧
    (∀ it ∈ (createAuction now ipr tr rdm s).1.items,
      (it ∈ s.items ∧ ∀ a ∈ s.auctions, a.status = AuctionStatus.active →
        it.auctionId ≠ a.id) ∨ it ∈ mkItems s.nextAuctionId (ipr * tr)) ∧
    (∀ a ∈ s.auctions, a.status = AuctionStatus.active → ∀ r : Nat,
      1 ≤ r → r ≤ a.totalRounds →
        (createAuction now ipr tr rdm s).1.boards (a.id, r) = []) ∧
    (∀ a ∈ (createAuction now ipr tr rdm s).1.auctions,
      a = (createAuction now ipr tr rdm s).2 ∨
        (a ∈ s.auctions ∧ ¬ a.status = AuctionStatus.active)) ∧
    (∀ a ∈ s.auctions, ¬ a.status = AuctionStatus.active →
      a ∈ (createAuction now ipr tr rdm s).1.auctions) := by
  refine ⟨rfl, ?_, ?_, ?_, ?_, ?_⟩
  · intro b hb
    have hb2 := List.mem_filter.mp hb
    refine ⟨hb2.1, ?_⟩
    intro a ha hact
    have hni : b.auctionId ∉
        (s.auctions.filter (fun a => decide (a.status = AuctionStatus.active))).map
          GAuction.id := by
      simpa using hb2.2
    intro hEq
    exact hni (hEq ▸ List.mem_map_of_mem GAuction.id
      (List.mem_filter.mpr ⟨ha, by simp [hact]⟩))
  · intro it hit
    rcases List.mem_append.mp hit with h | h
    · left
      have hit2 := List.mem_filter.mp h
      refine ⟨hit2.1, ?_⟩
      intro a ha hact
      have hni : it.auctionId ∉
          (s.auctions.filter (fun a => decide (a.status = AuctionStatus.active))).map
            GAuction.id := by
        simpa using hit2.2
      intro hEq
      exact hni (hEq ▸ List.mem_map_of_mem GAuction.id
        (List.mem_filter.mpr ⟨ha, by simp [hact]⟩))
    · right
      exact h
  · intro a ha hact r hr1 hr2
    show clearedBoards _ s.boards (a.id, r) = []
    unfold clearedBoards
    rw [if_pos ?_]
    rw [List.any_eq_true]
    refine ⟨a, List.mem_filter.mpr ⟨ha, by simp [hact]⟩, ?_⟩
    simp [hr1, hr2]
  · intro a ha
    rcases List.mem_append.mp ha with h | h
    · right
      have h2 := List.mem_filter.mp h
      exact ⟨h2.1, by simpa using h2.2⟩
    · left
      simpa using h
  · intro a ha hact
    exact List.mem_append_left _ (List.mem_filter.mpr ⟨ha, by simp [hact]⟩)

/-- A state with one Active auction (id 7, two rounds), one bid and one
item for it, and an escrowed wallet. -/
def exG : GState :=
  ⟨(fun v => if v = 1 then some ⟨1000, 400⟩ else none),
   [⟨7, AuctionStatus.active, 6, 3, 2, 1, [exRound1, exRound2]⟩],
   [⟨7, 1, 400, BidStatus.active⟩],
   [⟨7, 1, none, none, none, none⟩],
   (fun key => if key = (7, 1) then [(1, 400)] else []),
   8⟩

theorem C10_createAuction_frame_witness :
    (createAuction 0 3 5 2 exG).1.users = exG.users ∧
    (createAuction 0 3 5 2 exG).1.boards (7, 1) = [] := by
  have h := C10_createAuction_frame 0 3 5 2 exG
  refine ⟨h.1, ?_⟩
  exact h.2.2.2.1 ⟨7, AuctionStatus.active, 6, 3, 2, 1, [exRound1, exRound2]⟩
    (by decide) (by decide) 1 (by decide) (by decide)

end TgNftAuction
